import Mathlib

/-!
# Verification of the coffee processing plant system

Shallow embedding of `coffee_processing_plant_system.py`.

Files are modelled as optional character lists (`none` = the file does not
exist).  Python floats are idealised as rationals (`ℚ`); `str()`/`float()`
are modelled by the pair `showRat` / `pyFloat?` below, which is an exact
serialisation pair on ℚ (decimal and exponent literals are parsed as Python
does; the `num/den` form stands for the non-terminating decimals that exact
rationals introduce; `inf`/`nan`/underscore literals are outside the model).
Text-mode reads use Python's universal-newline treatment: `\n`, `\r` and
`\r\n` all terminate a line.
-/

set_option linter.unusedVariables false
set_option maxRecDepth 10000

namespace Coffee

/-- Characters of a file or field, the model's string type. -/
abbrev Str := List Char

/-- Shorthand turning a Lean string literal into the model's string type. -/
def str (s : String) : Str := s.data

/-- The whitespace characters removed by Python's `str.strip()`. -/
def isPyWs (c : Char) : Bool :=
  c = ' ' || c = '\t' || c = '\n' || c = '\r' || c = '\x0b' || c = '\x0c'

/-- Python `line.strip()`: drop leading and trailing whitespace. -/
def pyStrip (s : Str) : Str :=
  ((s.dropWhile isPyWs).reverse.dropWhile isPyWs).reverse

/-- Split file contents into lines the way Python text-mode iteration and
`readlines()` do (universal newlines: `\n`, `\r\n` and `\r` all end a
line; no final empty line after a trailing terminator).  The produced
lines carry no terminator characters. -/
def splitLines : List Char → List (List Char)
  | [] => []
  | '\r' :: '\n' :: rest => [] :: splitLines rest
  | '\n' :: rest => [] :: splitLines rest
  | '\r' :: rest => [] :: splitLines rest
  | c :: rest =>
    match splitLines rest with
    | [] => [[c]]
    | l :: ls => (c :: l) :: ls

/-- Python `s.split(sep)` for a one-character separator (no maxsplit). -/
def splitOnChar (sep : Char) : Str → List Str
  | [] => [[]]
  | c :: rest =>
    if c = sep then [] :: splitOnChar sep rest
    else
      match splitOnChar sep rest with
      | [] => [[c]]
      | f :: fs => (c :: f) :: fs

/-- Python `line.split(",")`. -/
def splitComma : Str → List Str := splitOnChar ','

/-- Rejoin strings with commas (`",".join`), used to model `maxsplit`. -/
def joinComma : List Str → Str
  | [] => []
  | [f] => f
  | f :: fs => f ++ ',' :: joinComma fs

/-- Python `line.split(",", 2)`: at most three parts, the third keeps its
inner commas. -/
def splitComma2 (s : Str) : List Str :=
  match splitComma s with
  | a :: b :: c :: rest => [a, b, joinComma (c :: rest)]
  | parts => parts

/-- Numeric value of a digit character. -/
def digitVal (c : Char) : ℕ := c.toNat - 48

/-- Value of a big-endian digit string. -/
def natOfDigits (ds : Str) : ℕ := ds.foldl (fun a c => 10 * a + digitVal c) 0

/-- Digit character for `d < 10`. -/
def digitChar (d : ℕ) : Char := Char.ofNat (48 + d)

/-- Decimal digits of a natural number, accumulator form. -/
def showNatAux (n : ℕ) (acc : Str) : Str :=
  if h : n < 10 then digitChar n :: acc
  else showNatAux (n / 10) (digitChar (n % 10) :: acc)
  termination_by n
  decreasing_by exact Nat.div_lt_self (by omega) (by omega)

/-- Decimal representation of a natural number. -/
def showNat (n : ℕ) : Str := showNatAux n []

/-- Decimal representation of an integer. -/
def showInt (i : ℤ) : Str :=
  if i < 0 then '-' :: showNat i.natAbs else showNat i.natAbs

/-- Model of Python `str()` on the idealised (rational) floats: integers
print as their digits, other rationals as `num/den`. -/
def showRat (q : ℚ) : Str :=
  if q.den = 1 then showInt q.num else showInt q.num ++ '/' :: showNat q.den

/-- Mantissa of a Python float literal: `D`, `D.D`, `D.` or `.D`. -/
def parseMantissa (m : Str) : Option ℚ :=
  match splitOnChar '.' m with
  | [d] => if !d.isEmpty && d.all Char.isDigit then some (natOfDigits d) else none
  | [i, f] =>
    if !(i ++ f).isEmpty && i.all Char.isDigit && f.all Char.isDigit then
      some ((natOfDigits i : ℚ) + (natOfDigits f : ℚ) / 10 ^ f.length)
    else none
  | _ => none

/-- Optionally signed decimal integer (exponent part of a float literal). -/
def parseSignedInt : Str → Option ℤ
  | '+' :: r => if !r.isEmpty && r.all Char.isDigit then some (natOfDigits r) else none
  | '-' :: r => if !r.isEmpty && r.all Char.isDigit then some (-(natOfDigits r : ℤ)) else none
  | r => if !r.isEmpty && r.all Char.isDigit then some (natOfDigits r) else none

/-- Split a float literal at its first `e`/`E`, if any. -/
def splitExp : Str → Str × Option Str
  | [] => ([], none)
  | c :: rest =>
    if c = 'e' || c = 'E' then ([], some rest)
    else
      let (m, e) := splitExp rest
      (c :: m, e)

/-- Unsigned part of the float grammar: a decimal literal with optional
exponent, or the `num/den` form emitted by `showRat`. -/
def parseUnsigned (u : Str) : Option ℚ :=
  match splitOnChar '/' u with
  | [m] =>
    match splitExp m with
    | (mant, none) => parseMantissa mant
    | (mant, some ex) => do
      let v ← parseMantissa mant
      let k ← parseSignedInt ex
      some (v * (10 : ℚ) ^ k)
  | [nstr, dstr] =>
    if !nstr.isEmpty && nstr.all Char.isDigit && !dstr.isEmpty && dstr.all Char.isDigit
        && natOfDigits dstr != 0 then
      some ((natOfDigits nstr : ℚ) / (natOfDigits dstr : ℚ))
    else none
  | _ => none

/-- Model of Python `float(s)`: strip whitespace, optional sign, then the
unsigned grammar.  `none` models the `ValueError`. -/
def pyFloat? (s : Str) : Option ℚ :=
  match pyStrip s with
  | [] => parseUnsigned []
  | c :: r =>
    if c = '+' then parseUnsigned r
    else if c = '-' then (parseUnsigned r).map (fun q => -q)
    else parseUnsigned (c :: r)

example : pyFloat? (str "250") = some 250 := by with_unfolding_all decide
example : pyFloat? (str " 2.5 ") = some (5 / 2) := by with_unfolding_all decide
example : pyFloat? (str "-1.5e1") = some (-15) := by with_unfolding_all decide
example : pyFloat? (str "abc") = none := by with_unfolding_all decide
example : pyFloat? (str "") = none := by with_unfolding_all decide
example : pyFloat? (str "1.2.3") = none := by with_unfolding_all decide
example : showRat (5 / 2) = str "5/2" := by with_unfolding_all decide
example : pyFloat? (showRat (5 / 2)) = some (5 / 2) := by with_unfolding_all decide
example : splitLines (str "a\n\nb\r\nc\rd") = [str "a", [], str "b", str "c", str "d"] := by with_unfolding_all decide
example : splitComma2 (str "a,b,c,d") = [str "a", str "b", str "c,d"] := by with_unfolding_all decide
example : pyStrip (str "  a b \n") = str "a b" := by with_unfolding_all decide

/-! ## Data model and file state -/

/-- A parsed bean batch record (`read_inventory` dictionary). -/
structure Batch where
  batch_id : Str
  date : Str
  farmer_id : Str
  bean_type : Str
  weight_kg : ℚ
  status : Str
deriving DecidableEq, Repr

/-- A parsed processing record (`read_processing_records` dictionary). -/
structure ProcRecord where
  batch_id : Str
  process_type : Str
  start_date : Str
  end_date : Str
  weight_after : ℚ
deriving DecidableEq, Repr

/-- A parsed operations-log entry (`read_recent_logs` dictionary). -/
structure LogEntry where
  timestamp : Str
  operation : Str
  details : Str
deriving DecidableEq, Repr

/-- Contents of one file; `none` models a missing file
(`FileNotFoundError` on read). -/
abbrev FileContent := Option Str

/-- The three files the system uses: `bean_inventory.txt`,
`processing_records.txt` and `operations_log.txt`. -/
structure FS where
  inv : FileContent
  proc : FileContent
  log : FileContent
deriving DecidableEq, Repr

/-- Opening a file in append mode creates it when missing and adds the
written text at the end. -/
def appendFile (f : FileContent) (s : Str) : FileContent :=
  some (f.getD [] ++ s)

/-! ## Reading (`read_inventory`, `read_processing_records`,
`find_batch_by_id`) -/

/-- The body of the `read_inventory` loop on one line: `none` models the
`ValueError` from `float(parts[4])` escaping the loop, `some none` a line
that is skipped (blank, or fewer than 6 fields), `some (some b)` a parsed
batch. -/
def parseInvLine (line : Str) : Option (Option Batch) :=
  if (pyStrip line).isEmpty then some none
  else if 6 ≤ (splitComma (pyStrip line)).length then
    match pyFloat? ((splitComma (pyStrip line)).getD 4 []) with
    | none => none
    | some w =>
      some (some ⟨(splitComma (pyStrip line)).getD 0 [],
        (splitComma (pyStrip line)).getD 1 [],
        (splitComma (pyStrip line)).getD 2 [],
        (splitComma (pyStrip line)).getD 3 [], w,
        (splitComma (pyStrip line)).getD 5 []⟩)
  else some none

/-- Same for one `processing_records.txt` line (5 fields,
`float(parts[4])`). -/
def parseProcLine (line : Str) : Option (Option ProcRecord) :=
  if (pyStrip line).isEmpty then some none
  else if 5 ≤ (splitComma (pyStrip line)).length then
    match pyFloat? ((splitComma (pyStrip line)).getD 4 []) with
    | none => none
    | some w =>
      some (some ⟨(splitComma (pyStrip line)).getD 0 [],
        (splitComma (pyStrip line)).getD 1 [],
        (splitComma (pyStrip line)).getD 2 [],
        (splitComma (pyStrip line)).getD 3 [], w⟩)
  else some none

/-- Run a line parser over all lines, in order, aborting at the first
raised exception (the Python loop inside the `try`). -/
def parseLines {α : Type} (p : Str → Option (Option α)) : List Str → Option (List α)
  | [] => some []
  | l :: ls =>
    match p l with
    | none => none
    | some none => parseLines p ls
    | some (some a) => (parseLines p ls).map (a :: ·)

/-- `read_inventory`: missing file and any in-loop exception both collapse
to the empty list (the function's `except` clauses). -/
def read_inventory (f : FileContent) : List Batch :=
  match f with
  | none => []
  | some content => (parseLines parseInvLine (splitLines content)).getD []

/-- `read_processing_records`. -/
def read_processing_records (f : FileContent) : List ProcRecord :=
  match f with
  | none => []
  | some content => (parseLines parseProcLine (splitLines content)).getD []

/-- `find_batch_by_id`: first batch with the given id, else `None`. -/
def find_batch_by_id (batch_id : Str) (f : FileContent) : Option Batch :=
  (read_inventory f).find? (fun b => b.batch_id = batch_id)

/-! ## Writing (`log_operation`, `add_bean_batch`,
`record_processing_stage`, `update_batch_status`) -/

/-- The CSV line written for a batch (without its newline); kept
right-nested so that splitting lemmas apply directly. -/
def invLineBody (b : Batch) : Str :=
  b.batch_id ++ ',' :: (b.date ++ ',' :: (b.farmer_id ++ ',' ::
    (b.bean_type ++ ',' :: (showRat b.weight_kg ++ ',' :: b.status))))

/-- The full line `add_bean_batch` / `update_batch_status` write. -/
def invLine (b : Batch) : Str := invLineBody b ++ ['\n']

/-- The CSV line written for a processing record. -/
def procLineBody (r : ProcRecord) : Str :=
  r.batch_id ++ ',' :: (r.process_type ++ ',' :: (r.start_date ++ ',' ::
    (r.end_date ++ ',' :: showRat r.weight_after)))

/-- The full line `record_processing_stage` writes. -/
def procLine (r : ProcRecord) : Str := procLineBody r ++ ['\n']

/-- `log_operation`: append `timestamp,operation,details`.  The timestamp
is `datetime.now()` formatted, passed in as a parameter. -/
def log_operation (op details ts : Str) (f : FileContent) : FileContent :=
  appendFile f (ts ++ ',' :: (op ++ ',' :: (details ++ ['\n'])))

/-- Input dictionary for `add_bean_batch`: each required key may be
missing. -/
structure BatchInput where
  batch_id : Option Str
  date : Option Str
  farmer_id : Option Str
  bean_type : Option Str
  weight_kg : Option ℚ
  status : Option Str
deriving DecidableEq, Repr

/-- Input dictionary for `record_processing_stage`. -/
structure ProcInput where
  batch_id : Option Str
  process_type : Option Str
  start_date : Option Str
  end_date : Option Str
  weight_after : Option ℚ
deriving DecidableEq, Repr

/-- `add_bean_batch`: validate the six required fields, reject a duplicate
id (check via `find_batch_by_id`), else append the CSV line and log. -/
def add_bean_batch (d : BatchInput) (ts : Str) (fs : FS) : Bool × FS :=
  match d.batch_id, d.date, d.farmer_id, d.bean_type, d.weight_kg, d.status with
  | some id, some date, some farmer, some bean, some w, some st =>
    if (find_batch_by_id id fs.inv).isSome then (false, fs)
    else
      let b : Batch := ⟨id, date, farmer, bean, w, st⟩
      (true, { fs with
        inv := appendFile fs.inv (invLine b),
        log := log_operation (str "add_batch") (str "Added batch " ++ id) ts fs.log })
  | _, _, _, _, _, _ => (false, fs)

/-- The in-memory update of `update_batch_status`: set the status of the
first batch with the given id (the loop `break`s at the first match). -/
def setStatus (batch_id new_status : Str) : List Batch → List Batch
  | [] => []
  | b :: bs =>
    if b.batch_id = batch_id then { b with status := new_status } :: bs
    else b :: setStatus batch_id new_status bs

/-- File contents produced by the write-back loop of
`update_batch_status`. -/
def writeInv : List Batch → Str
  | [] => []
  | b :: bs => invLine b ++ writeInv bs

/-- `update_batch_status`: read all batches, update the first match in
memory, rewrite the whole file, log; fail (state unchanged) when the id is
not found. -/
def update_batch_status (batch_id new_status ts : Str) (fs : FS) : Bool × FS :=
  if (read_inventory fs.inv).any (fun b => b.batch_id = batch_id) then
    (true, { fs with
      inv := some (writeInv (setStatus batch_id new_status (read_inventory fs.inv))),
      log := log_operation (str "update_status")
        (str "Updated batch " ++ batch_id ++ str " status to " ++ new_status) ts fs.log })
  else (false, fs)

/-- `record_processing_stage`: validate the five required fields, append
the CSV line, then update the batch status (its result is ignored), then
log.  `ts1` is the timestamp of the inner `update_batch_status` log, `ts2`
of the function's own log. -/
def record_processing_stage (d : ProcInput) (ts1 ts2 : Str) (fs : FS) : Bool × FS :=
  match d.batch_id, d.process_type, d.start_date, d.end_date, d.weight_after with
  | some id, some pt, some sd, some ed, some w =>
    let r : ProcRecord := ⟨id, pt, sd, ed, w⟩
    let fs1 := { fs with proc := appendFile fs.proc (procLine r) }
    let fs2 := (update_batch_status id pt ts1 fs1).2
    (true, { fs2 with
      log := log_operation (str "record_processing")
        (str "Recorded " ++ pt ++ str " for batch " ++ id) ts2 fs2.log })
  | _, _, _, _, _ => (false, fs)

/-! ## Analytics (`calculate_inventory_summary`,
`calculate_processing_yields`) -/

/-- One step of the Python group-by loops over an insertion-ordered dict:
`if k not in d: d[k] = 0` then `d[k] += w`. -/
def bumpWeight (m : List (Str × ℚ)) (k : Str) (w : ℚ) : List (Str × ℚ) :=
  match m with
  | [] => [(k, w)]
  | p :: t => if p.1 = k then (p.1, p.2 + w) :: t else p :: bumpWeight t k w

/-- The summary dictionary of `calculate_inventory_summary`. -/
structure Summary where
  total_batches : ℕ
  total_weight : ℚ
  bean_types : List (Str × ℚ)
  stages : List (Str × ℚ)
deriving DecidableEq, Repr

/-- `calculate_inventory_summary`: `None` on an empty inventory, else the
totals and the two insertion-ordered group-by dicts. -/
def calculate_inventory_summary (f : FileContent) : Option Summary :=
  let inventory := read_inventory f
  if inventory.isEmpty then none
  else some
    { total_batches := inventory.length
      total_weight := (inventory.map (fun b => b.weight_kg)).sum
      bean_types := inventory.foldl (fun m b => bumpWeight m b.bean_type b.weight_kg) []
      stages := inventory.foldl (fun m b => bumpWeight m b.status b.weight_kg) [] }

/-- One step of the grouping loop of `calculate_processing_yields`
(`process_types[pt].append(record)`). -/
def addToGroup (m : List (Str × List ProcRecord)) (r : ProcRecord) :
    List (Str × List ProcRecord) :=
  match m with
  | [] => [(r.process_type, [r])]
  | p :: t =>
    if p.1 = r.process_type then (p.1, p.2 ++ [r]) :: t else p :: addToGroup t r

/-- Records grouped by `process_type`, insertion ordered. -/
def groupRecords (rs : List ProcRecord) : List (Str × List ProcRecord) :=
  rs.foldl addToGroup []

/-- Python's `round` (banker's rounding, ties to even). -/
def pyRound (q : ℚ) : ℤ :=
  let f := ⌊q⌋
  let r := q - f
  if r < 1 / 2 then f
  else if 1 / 2 < r then f + 1
  else if 2 ∣ f then f else f + 1

/-- `round(x, 2)`. -/
def pyRound2 (q : ℚ) : ℚ := (pyRound (q * 100) : ℚ) / 100

/-- The per-group statistics dictionary of `calculate_processing_yields`. -/
structure YieldStat where
  average_yield_percentage : ℚ
  count : ℕ
deriving DecidableEq, Repr

/-- Records of a group paired with the inventory batch their id resolves
to (unresolvable records are silently skipped). -/
def resolvedOf (inv : FileContent) (rs : List ProcRecord) : List (ProcRecord × Batch) :=
  rs.filterMap (fun r => (find_batch_by_id r.batch_id inv).map (fun b => (r, b)))

/-- `calculate_processing_yields`: group by `process_type`; per group,
average `weight_after / weight_kg * 100` over the records whose batch id
resolves; groups with no resolving record get no key.  A resolving batch
of weight `0` makes the Python code raise `ZeroDivisionError`, which the
outer `except` turns into `{}` — modelled by the leading check. -/
def calculate_processing_yields (inv proc : FileContent) : List (Str × YieldStat) :=
  let groups := groupRecords (read_processing_records proc)
  if groups.any (fun g => (resolvedOf inv g.2).any (fun rb => rb.2.weight_kg = 0)) then []
  else
    groups.foldl (fun acc g =>
      let resolved := resolvedOf inv g.2
      if 0 < resolved.length then
        let total := (resolved.map (fun rb => rb.1.weight_after / rb.2.weight_kg * 100)).sum
        acc ++ [(g.1, ⟨pyRound2 (total / resolved.length), resolved.length⟩)]
      else acc) []

/-! ## Log reading (`read_recent_logs`) -/

/-- The body of the `read_recent_logs` loop on one line: keep it only when
`line.strip().split(",", 2)` has at least 3 parts. -/
def parseLogLine (line : Str) : Option LogEntry :=
  match splitComma2 (pyStrip line) with
  | [t, o, d] => some ⟨t, o, d⟩
  | _ => none

/-- `read_recent_logs(count)`: read all lines, slice `lines[-count:]`
(note Python's `-0 == 0`: a count of `0` keeps every line), keep the
well-formed entries and reverse so the newest comes first. -/
def read_recent_logs (count : ℕ) (f : FileContent) : List LogEntry :=
  match f with
  | none => []
  | some content =>
    let lines := splitLines content
    let recent := if count = 0 then lines else lines.drop (lines.length - count)
    (recent.filterMap parseLogLine).reverse

/-! ### Sanity checks on the sample data of `create_sample_data` -/

/-- The sample `bean_inventory.txt`. -/
def sampleInv : Str :=
  str "B001,2023-05-15,F042,Arabica,250,received\nB002,2023-05-16,F036,Robusta,300,washing\nB003,2023-05-17,F042,Arabica,175,drying\n"

/-- The sample `processing_records.txt`. -/
def sampleProc : Str :=
  str "B001,washing,2023-05-16,2023-05-17,245\nB002,washing,2023-05-17,2023-05-18,294\nB003,drying,2023-05-18,2023-05-20,160\n"

example : (read_inventory (some sampleInv)).length = 3 := by with_unfolding_all decide

example :
    find_batch_by_id (str "B002") (some sampleInv) =
      some ⟨str "B002", str "2023-05-16", str "F036", str "Robusta", 300, str "washing"⟩ := by
  with_unfolding_all decide

example :
    (calculate_inventory_summary (some sampleInv)).map (fun s => s.total_weight) =
      some 725 := by
  with_unfolding_all decide

example :
    calculate_processing_yields (some (str "B1,d,f,b,4,s\n"))
        (some (str "B1,washing,d1,d2,3\n")) =
      [(str "washing", ⟨75, 1⟩)] := by
  with_unfolding_all decide

example :
    read_recent_logs 2 (some (str "t1,add_batch,Added batch B1\nt2,update_status,x\n")) =
      [⟨str "t2", str "update_status", str "x"⟩,
       ⟨str "t1", str "add_batch", str "Added batch B1"⟩] := by
  with_unfolding_all decide

/-! ## Decimal digits: round-trip facts for `showNat` / `natOfDigits` -/

theorem digitVal_digitChar {d : ℕ} (h : d < 10) : digitVal (digitChar d) = d := by
  interval_cases d <;> decide

theorem isDigit_digitChar {d : ℕ} (h : d < 10) : (digitChar d).isDigit = true := by
  interval_cases d <;> decide

theorem natOfDigits_go (xs : Str) :
    ∀ a : ℕ, xs.foldl (fun a c => 10 * a + digitVal c) a =
      a * 10 ^ xs.length + natOfDigits xs := by
  induction xs with
  | nil => intro a; simp [natOfDigits]
  | cons c xs ih =>
    intro a
    show (xs.foldl _ (10 * a + digitVal c)) = _
    rw [ih (10 * a + digitVal c)]
    have : natOfDigits (c :: xs) = digitVal c * 10 ^ xs.length + natOfDigits xs := by
      show (xs.foldl _ (10 * 0 + digitVal c)) = _
      rw [ih (10 * 0 + digitVal c)]; ring_nf
    rw [this]; simp [List.length_cons, pow_succ]; ring

theorem natOfDigits_append (xs ys : Str) :
    natOfDigits (xs ++ ys) = natOfDigits xs * 10 ^ ys.length + natOfDigits ys := by
  show ((xs ++ ys).foldl _ 0) = _
  rw [List.foldl_append, natOfDigits_go]; rfl

theorem showNatAux_eq (n : ℕ) : ∀ acc, showNatAux n acc = showNatAux n [] ++ acc := by
  induction n using Nat.strong_induction_on with
  | _ n ih =>
    intro acc
    by_cases h : n < 10
    · have l : showNatAux n acc = digitChar n :: acc := by rw [showNatAux, dif_pos h]
      have r : showNatAux n [] = [digitChar n] := by rw [showNatAux, dif_pos h]
      rw [l, r]; rfl
    · have hlt : n / 10 < n := Nat.div_lt_self (by omega) (by omega)
      have l : showNatAux n acc = showNatAux (n / 10) (digitChar (n % 10) :: acc) := by
        rw [showNatAux, dif_neg h]
      have r : showNatAux n [] = showNatAux (n / 10) [digitChar (n % 10)] := by
        rw [showNatAux, dif_neg h]
      rw [l, r, ih (n / 10) hlt (digitChar (n % 10) :: acc),
        ih (n / 10) hlt [digitChar (n % 10)]]
      simp

theorem showNat_of_lt {n : ℕ} (h : n < 10) : showNat n = [digitChar n] := by
  rw [showNat, showNatAux, dif_pos h]

theorem showNat_of_ge {n : ℕ} (h : ¬n < 10) :
    showNat n = showNat (n / 10) ++ [digitChar (n % 10)] := by
  rw [showNat, showNatAux, dif_neg h, showNatAux_eq]; rfl

theorem natOfDigits_showNat (n : ℕ) : natOfDigits (showNat n) = n := by
  induction n using Nat.strong_induction_on with
  | _ n ih =>
    by_cases h : n < 10
    · rw [showNat_of_lt h]
      show 10 * 0 + digitVal (digitChar n) = n
      rw [digitVal_digitChar h]; ring
    · rw [showNat_of_ge h, natOfDigits_append,
        ih (n / 10) (Nat.div_lt_self (by omega) (by omega))]
      have : natOfDigits [digitChar (n % 10)] = n % 10 := by
        show 10 * 0 + digitVal (digitChar (n % 10)) = n % 10
        rw [digitVal_digitChar (by omega)]; ring
      rw [this]
      simp; omega

theorem mem_showNat_isDigit {n : ℕ} {c : Char} (h : c ∈ showNat n) : c.isDigit = true := by
  induction n using Nat.strong_induction_on with
  | _ n ih =>
    by_cases hlt : n < 10
    · rw [showNat_of_lt hlt] at h
      rcases List.mem_singleton.mp h with rfl
      exact isDigit_digitChar hlt
    · rw [showNat_of_ge hlt] at h
      rcases List.mem_append.mp h with h1 | h1
      · exact ih (n / 10) (Nat.div_lt_self (by omega) (by omega)) h1
      · rcases List.mem_singleton.mp h1 with rfl
        exact isDigit_digitChar (by omega)

theorem showNat_ne_nil (n : ℕ) : showNat n ≠ [] := by
  by_cases h : n < 10
  · rw [showNat_of_lt h]; simp
  · rw [showNat_of_ge h]; simp

/-! ## Character classes -/

theorem isDigit_ne {c d : Char} (h : c.isDigit = true) (hd : d.isDigit = false) :
    c ≠ d := by
  intro e; rw [e] at h; rw [h] at hd; cases hd

theorem mem_showInt {i : ℤ} {c : Char} (h : c ∈ showInt i) :
    c = '-' ∨ c.isDigit = true := by
  rw [showInt] at h
  split at h
  · rcases List.mem_cons.mp h with rfl | h
    · exact Or.inl rfl
    · exact Or.inr (mem_showNat_isDigit h)
  · exact Or.inr (mem_showNat_isDigit h)

theorem mem_showRat {q : ℚ} {c : Char} (h : c ∈ showRat q) :
    c = '-' ∨ c = '/' ∨ c.isDigit = true := by
  rw [showRat] at h
  split at h
  · rcases mem_showInt h with h | h
    · exact Or.inl h
    · exact Or.inr (Or.inr h)
  · rcases List.mem_append.mp h with h | h
    · rcases mem_showInt h with h | h
      · exact Or.inl h
      · exact Or.inr (Or.inr h)
    · rcases List.mem_cons.mp h with rfl | h
      · exact Or.inr (Or.inl rfl)
      · exact Or.inr (Or.inr (mem_showNat_isDigit h))

/-- A character that can sit inside a CSV field without disturbing the
round-trip: not `strip`ped whitespace (hence not a line terminator) and
not the delimiter. -/
def goodChar (c : Char) : Bool := !isPyWs c && c != ','

theorem goodChar_of_isDigit {c : Char} (h : c.isDigit = true) : goodChar c = true := by
  have sp := isDigit_ne h (d := ' ') (by decide)
  have tb := isDigit_ne h (d := '\t') (by decide)
  have nl := isDigit_ne h (d := '\n') (by decide)
  have cr := isDigit_ne h (d := '\r') (by decide)
  have vt := isDigit_ne h (d := '\x0b') (by decide)
  have ff := isDigit_ne h (d := '\x0c') (by decide)
  have cm := isDigit_ne h (d := ',') (by decide)
  simp [goodChar, isPyWs, sp, tb, nl, cr, vt, ff, cm]

/-- Every character of the string is CSV-safe. -/
def GoodStr (s : Str) : Prop := ∀ c ∈ s, goodChar c = true

instance (s : Str) : Decidable (GoodStr s) := by unfold GoodStr; infer_instance

theorem showRat_good (q : ℚ) : GoodStr (showRat q) := by
  intro c h
  rcases mem_showRat h with rfl | rfl | h
  · decide
  · decide
  · exact goodChar_of_isDigit h

theorem GoodStr.not_mem {s : Str} (h : GoodStr s) {c : Char}
    (hc : goodChar c = false) : c ∉ s :=
  fun m => by rw [h c m] at hc; cases hc

theorem GoodStr.no_ws {s : Str} (h : GoodStr s) : ∀ c ∈ s, isPyWs c = false := by
  intro c m
  have := h c m
  rw [goodChar, Bool.and_eq_true, Bool.not_eq_true'] at this
  exact this.1

theorem GoodStr.append {a b : Str} (ha : GoodStr a) (hb : GoodStr b) :
    GoodStr (a ++ b) := by
  intro c m
  rcases List.mem_append.mp m with m | m
  · exact ha c m
  · exact hb c m

/-! ## `pyStrip` -/

theorem dropWhile_eq_self_of {p : Char → Bool} {s : Str}
    (h : ∀ c ∈ s, p c = false) : s.dropWhile p = s := by
  cases s with
  | nil => rfl
  | cons c t => rw [List.dropWhile_cons, h c (List.mem_cons_self c t)]; simp

theorem pyStrip_eq_self {s : Str} (h : ∀ c ∈ s, isPyWs c = false) : pyStrip s = s := by
  rw [pyStrip, dropWhile_eq_self_of h,
    dropWhile_eq_self_of (fun c hc => h c (List.mem_reverse.mp hc)),
    List.reverse_reverse]

theorem mem_pyStrip {s : Str} {c : Char} (h : c ∈ pyStrip s) : c ∈ s := by
  rw [pyStrip] at h
  have h1 := (List.dropWhile_sublist (l := (s.dropWhile isPyWs).reverse)
    (p := isPyWs)).subset (List.mem_reverse.mp h)
  exact (List.dropWhile_sublist (l := s) (p := isPyWs)).subset
    (List.mem_reverse.mp h1)

/-! ## `splitOnChar` -/

theorem splitOnChar_of_not_mem {sep : Char} {s : Str} (h : sep ∉ s) :
    splitOnChar sep s = [s] := by
  induction s with
  | nil => rfl
  | cons c t ih =>
    have hc : ¬c = sep := fun e => h (e ▸ List.mem_cons_self c t)
    rw [splitOnChar, if_neg hc, ih (fun ht => h (List.mem_cons_of_mem c ht))]

theorem splitOnChar_append {sep : Char} {a : Str} (h : sep ∉ a) (b : Str) :
    splitOnChar sep (a ++ sep :: b) = a :: splitOnChar sep b := by
  induction a with
  | nil => simp [splitOnChar]
  | cons c t ih =>
    have hc : ¬c = sep := fun e => h (e ▸ List.mem_cons_self c t)
    rw [List.cons_append, splitOnChar, if_neg hc,
      ih (fun ht => h (List.mem_cons_of_mem c ht))]

theorem splitOnChar_ne_nil {sep : Char} (s : Str) : splitOnChar sep s ≠ [] := by
  cases s with
  | nil => simp [splitOnChar]
  | cons c t =>
    rw [splitOnChar]
    by_cases hc : c = sep
    · rw [if_pos hc]; simp
    · rw [if_neg hc]
      cases splitOnChar sep t <;> simp

theorem mem_splitOnChar {sep : Char} {s l : Str} (hl : l ∈ splitOnChar sep s) :
    ∀ c ∈ l, c ∈ s ∧ c ≠ sep := by
  induction s generalizing l with
  | nil =>
    rw [splitOnChar] at hl
    rcases List.mem_singleton.mp hl with rfl
    intro c hc; cases hc
  | cons a t ih =>
    rw [splitOnChar] at hl
    by_cases ha : a = sep
    · rw [if_pos ha] at hl
      rcases List.mem_cons.mp hl with rfl | hl
      · intro c hc; cases hc
      · intro c hc
        rcases ih hl c hc with ⟨h1, h2⟩
        exact ⟨List.mem_cons_of_mem a h1, h2⟩
    · rw [if_neg ha] at hl
      rcases h2 : splitOnChar sep t with _ | ⟨f, fs⟩
      · exact absurd h2 (splitOnChar_ne_nil t)
      · rw [h2] at hl
        rcases List.mem_cons.mp hl with rfl | hl
        · intro c hc
          rcases List.mem_cons.mp hc with rfl | hc
          · exact ⟨List.mem_cons_self c t, ha⟩
          · rcases ih (h2 ▸ List.mem_cons_self f fs) c hc with ⟨x1, x2⟩
            exact ⟨List.mem_cons_of_mem a x1, x2⟩
        · intro c hc
          rcases ih (h2 ▸ List.mem_cons_of_mem f hl) c hc with ⟨x1, x2⟩
          exact ⟨List.mem_cons_of_mem a x1, x2⟩

/-! ## `splitExp` -/

theorem splitExp_of_no_e {m : Str} (h : ∀ c ∈ m, c ≠ 'e' ∧ c ≠ 'E') :
    splitExp m = (m, none) := by
  induction m with
  | nil => rfl
  | cons c t ih =>
    have hc := h c (List.mem_cons_self c t)
    rw [splitExp]
    have hcond : ¬(c = 'e' || c = 'E') = true := by
      simp only [Bool.or_eq_true, decide_eq_true_eq]
      rintro (rfl | rfl)
      · exact hc.1 rfl
      · exact hc.2 rfl
    rw [if_neg hcond, ih (fun d hd => h d (List.mem_cons_of_mem c hd))]

/-! ## `splitLines` -/

theorem splitLines_cons_other {c : Char} {rest : List Char} (h1 : c ≠ '\n') (h2 : c ≠ '\r') :
    splitLines (c :: rest) =
      (match splitLines rest with
       | [] => [[c]]
       | l :: ls => (c :: l) :: ls) := by
  rw [splitLines.eq_def]
  split
  · simp_all
  · simp_all
  · simp_all
  · simp_all
  · rename_i c1 rest1 hx1 hx2 hx3 heq
    injection heq with e1 e2
    subst e1; subst e2; rfl

theorem splitLines_cr {rest : List Char} (h : ∀ r', rest ≠ '\n' :: r') :
    splitLines ('\r' :: rest) = [] :: splitLines rest := by
  rw [splitLines.eq_def]
  split <;> simp_all
  rename_i h2 heq
  exact absurd heq.1.symm h2

theorem splitLines_ne_nil {x : Str} (h : x ≠ []) : splitLines x ≠ [] := by
  rcases x with _ | ⟨c, rest⟩
  · exact absurd rfl h
  · by_cases h1 : c = '\n'
    · subst h1; rw [show splitLines ('\n' :: rest) = [] :: splitLines rest from rfl]; simp
    · by_cases h2 : c = '\r'
      · subst h2
        rcases rest with _ | ⟨d, r⟩
        · rw [splitLines_cr (fun r' => by simp)]; simp
        · by_cases hd : d = '\n'
          · subst hd
            rw [show splitLines ('\r' :: '\n' :: r) = [] :: splitLines r from rfl]; simp
          · have hdr : ∀ r', d :: r ≠ '\n' :: r' := fun r' e => hd (by
              have := congrArg List.head? e
              simpa using this)
            rw [splitLines_cr hdr]
            simp
      · rw [splitLines_cons_other h1 h2]
        cases splitLines rest <;> simp

theorem splitLines_line {l : Str} (hl : ∀ c ∈ l, c ≠ '\n' ∧ c ≠ '\r') (d : Str) :
    splitLines (l ++ '\n' :: d) = l :: splitLines d := by
  induction l with
  | nil => rfl
  | cons c t ih =>
    have hc := hl c (List.mem_cons_self c t)
    rw [List.cons_append, splitLines_cons_other hc.1 hc.2,
      ih (fun x hx => hl x (List.mem_cons_of_mem c hx))]

theorem splitLines_append {x : Str} (d : Str) :
    x.getLast? = some '\n' → splitLines (x ++ d) = splitLines x ++ splitLines d := by
  induction x using splitLines.induct with
  | case1 => intro h; cases h
  | case2 rest ih =>
    intro h
    show splitLines ('\r' :: '\n' :: (rest ++ d)) = _
    rw [show splitLines ('\r' :: '\n' :: (rest ++ d)) = [] :: splitLines (rest ++ d) from rfl,
      show splitLines ('\r' :: '\n' :: rest) = [] :: splitLines rest from rfl]
    rcases rest with _ | ⟨e, r⟩
    · rfl
    · rw [ih (by simpa using h), List.cons_append]
  | case3 rest ih =>
    intro h
    show splitLines ('\n' :: (rest ++ d)) = _
    rw [show splitLines ('\n' :: (rest ++ d)) = [] :: splitLines (rest ++ d) from rfl,
      show splitLines ('\n' :: rest) = [] :: splitLines rest from rfl]
    rcases rest with _ | ⟨e, r⟩
    · rfl
    · rw [ih (by simpa using h), List.cons_append]
  | case4 rest hne ih =>
    intro h
    have he : ∀ r', rest ≠ '\n' :: r' := fun r' hr => hne r' hr
    rcases rest with _ | ⟨e, r⟩
    · simp at h
    · have hen : e ≠ '\n' := fun ee => hne r (by rw [ee])
      have he2 : ∀ r', (e :: r) ++ d ≠ '\n' :: r' := fun r' hr => by
        rw [List.cons_append] at hr
        injection hr with e1 e2
        exact hen e1
      show splitLines ('\r' :: ((e :: r) ++ d)) = _
      rw [splitLines_cr he2, splitLines_cr he, ih (by simpa using h)]
      rfl
  | case5 c rest hx1 hx2 hx3 hnil ih =>
    intro h
    rcases rest with _ | ⟨e, r⟩
    · simp at h
      exact absurd h (fun hh => hx2 hh)
    · exact absurd hnil (splitLines_ne_nil (by simp))
  | case6 c rest hx1 hx2 hx3 l ls hcons ih =>
    intro h
    have hcn : c ≠ '\n' := fun e => hx2 e
    have hcr : c ≠ '\r' := fun e => hx3 e
    rcases rest with _ | ⟨e, r⟩
    · cases hcons
    · rw [List.cons_append, splitLines_cons_other hcn hcr,
        splitLines_cons_other hcn hcr, ih (by simpa using h), hcons]
      rfl

theorem mem_splitLines_no_term {x : Str} :
    ∀ l ∈ splitLines x, ∀ c ∈ l, c ≠ '\n' ∧ c ≠ '\r' := by
  induction x using splitLines.induct with
  | case1 => intro l hl; cases hl
  | case2 rest ih =>
    intro l hl
    rw [show splitLines ('\r' :: '\n' :: rest) = [] :: splitLines rest from rfl] at hl
    rcases List.mem_cons.mp hl with rfl | hm
    · intro c hc; cases hc
    · exact ih l hm
  | case3 rest ih =>
    intro l hl
    rw [show splitLines ('\n' :: rest) = [] :: splitLines rest from rfl] at hl
    rcases List.mem_cons.mp hl with rfl | hm
    · intro c hc; cases hc
    · exact ih l hm
  | case4 rest hne ih =>
    intro l hl
    rw [splitLines_cr (fun r' hr => hne r' hr)] at hl
    rcases List.mem_cons.mp hl with rfl | hm
    · intro c hc; cases hc
    · exact ih l hm
  | case5 c rest hx1 hx2 hx3 hnil ih =>
    intro l hl
    have hcn : c ≠ '\n' := fun e => hx2 e
    have hcr : c ≠ '\r' := fun e => hx3 e
    rw [splitLines_cons_other hcn hcr, hnil] at hl
    rcases List.mem_singleton.mp (by simpa using hl) with rfl
    intro x hx
    rcases List.mem_singleton.mp hx with rfl
    exact ⟨hcn, hcr⟩
  | case6 c rest hx1 hx2 hx3 l0 ls hcons ih =>
    intro l hl
    have hcn : c ≠ '\n' := fun e => hx2 e
    have hcr : c ≠ '\r' := fun e => hx3 e
    rw [splitLines_cons_other hcn hcr, hcons] at hl
    rcases List.mem_cons.mp hl with rfl | hm
    · intro x hx
      rcases List.mem_cons.mp hx with rfl | hx
      · exact ⟨hcn, hcr⟩
      · exact ih l0 (hcons ▸ List.mem_cons_self l0 ls) x hx
    · exact ih l (hcons ▸ List.mem_cons_of_mem l0 hm)

/-! ## Round trip: `pyFloat?` recovers what `showRat` printed -/

theorem showNat_all_digit (n : ℕ) : (showNat n).all Char.isDigit = true := by
  rw [List.all_eq_true]; exact fun c hc => mem_showNat_isDigit hc

theorem not_mem_showNat {c : Char} (hc : c.isDigit = false) (n : ℕ) :
    c ∉ showNat n :=
  fun h => by rw [mem_showNat_isDigit h] at hc; cases hc

theorem parseMantissa_digits {d : Str} (hne : d ≠ []) (hd : d.all Char.isDigit = true) :
    parseMantissa d = some (natOfDigits d) := by
  have hdot : '.' ∉ d := by
    rw [List.all_eq_true] at hd
    exact fun h => absurd (hd '.' h) (by decide)
  have hemp : d.isEmpty = false := by
    cases d with
    | nil => exact absurd rfl hne
    | cons c t => rfl
  rw [parseMantissa, splitOnChar_of_not_mem hdot]
  simp [hemp, hd]

theorem parseUnsigned_digits {d : Str} (hne : d ≠ []) (hd : d.all Char.isDigit = true) :
    parseUnsigned d = some (natOfDigits d) := by
  have hslash : '/' ∉ d := by
    rw [List.all_eq_true] at hd
    exact fun h => absurd (hd '/' h) (by decide)
  have hnoe : ∀ c ∈ d, c ≠ 'e' ∧ c ≠ 'E' := by
    rw [List.all_eq_true] at hd
    exact fun c hc => ⟨isDigit_ne (hd c hc) (by decide), isDigit_ne (hd c hc) (by decide)⟩
  rw [parseUnsigned, splitOnChar_of_not_mem hslash]
  show (match splitExp d with
    | (mant, none) => parseMantissa mant
    | (mant, some ex) => _) = _
  rw [splitExp_of_no_e hnoe]
  exact parseMantissa_digits hne hd

theorem parseUnsigned_frac {a b : Str} (hane : a ≠ []) (ha : a.all Char.isDigit = true)
    (hbne : b ≠ []) (hb : b.all Char.isDigit = true) (hb0 : natOfDigits b ≠ 0) :
    parseUnsigned (a ++ '/' :: b) = some ((natOfDigits a : ℚ) / natOfDigits b) := by
  have hsa : '/' ∉ a := by
    rw [List.all_eq_true] at ha
    exact fun h => absurd (ha '/' h) (by decide)
  have hsb : '/' ∉ b := by
    rw [List.all_eq_true] at hb
    exact fun h => absurd (hb '/' h) (by decide)
  have hae : a.isEmpty = false := by
    cases a with
    | nil => exact absurd rfl hane
    | cons c t => rfl
  have hbe : b.isEmpty = false := by
    cases b with
    | nil => exact absurd rfl hbne
    | cons c t => rfl
  rw [parseUnsigned, splitOnChar_append hsa, splitOnChar_of_not_mem hsb]
  simp [hae, hbe, ha, hb, hb0]

theorem pyFloat?_showRat (q : ℚ) : pyFloat? (showRat q) = some q := by
  have hstrip : pyStrip (showRat q) = showRat q :=
    pyStrip_eq_self ((showRat_good q).no_ws)
  set u : Str := if q.den = 1 then showNat q.num.natAbs
    else showNat q.num.natAbs ++ '/' :: showNat q.den with hu
  have hsplit : showRat q = (if q.num < 0 then ['-'] else []) ++ u := by
    rw [showRat, showInt, hu]
    by_cases h1 : q.den = 1 <;> by_cases h2 : q.num < 0 <;> simp [h1, h2]
  have hparse : parseUnsigned u = some ((q.num.natAbs : ℚ) / (q.den : ℚ)) := by
    rw [hu]
    by_cases h1 : q.den = 1
    · rw [if_pos h1, parseUnsigned_digits (showNat_ne_nil _) (showNat_all_digit _),
        natOfDigits_showNat, h1]
      norm_num
    · rw [if_neg h1, parseUnsigned_frac (showNat_ne_nil _) (showNat_all_digit _)
        (showNat_ne_nil _) (showNat_all_digit _)
        (by rw [natOfDigits_showNat]; exact q.den_nz),
        natOfDigits_showNat, natOfDigits_showNat]
  have hvq : ((q.num.natAbs : ℚ) / (q.den : ℚ)) = |(q.num : ℚ)| / (q.den : ℚ) := by
    rw [Int.cast_natAbs, Int.cast_abs]
  have hq : (q.num : ℚ) / (q.den : ℚ) = q := Rat.num_div_den q
  by_cases hneg : q.num < 0
  · have : showRat q = '-' :: u := by rw [hsplit, if_pos hneg]; rfl
    rw [pyFloat?, hstrip, this]
    show (if '-' = '+' then _ else if '-' = '-' then (parseUnsigned u).map _
      else _) = _
    rw [if_neg (by decide), if_pos rfl, hparse]
    have : |(q.num : ℚ)| = -(q.num : ℚ) :=
      abs_of_neg (by exact_mod_cast hneg)
    simp only [Option.map_some', hvq, this]
    rw [neg_div, neg_neg, hq]
  · have hur : showRat q = u := by rw [hsplit, if_neg hneg]; rfl
    have hune : u ≠ [] := by
      rw [hu]
      by_cases h1 : q.den = 1
      · rw [if_pos h1]; exact showNat_ne_nil _
      · rw [if_neg h1]
        cases h : showNat q.num.natAbs
        · exact absurd h (showNat_ne_nil _)
        · simp
    rcases hc : u with _ | ⟨c, r⟩
    · exact absurd hc hune
    · have hcd : c.isDigit = true := by
        have hc2 := hc
        rw [hu] at hc2
        by_cases h1 : q.den = 1
        · rw [if_pos h1] at hc2
          exact mem_showNat_isDigit (hc2 ▸ List.mem_cons_self c r)
        · rw [if_neg h1] at hc2
          rcases hsn : showNat q.num.natAbs with _ | ⟨d, ds⟩
          · exact absurd hsn (showNat_ne_nil _)
          · rw [hsn, List.cons_append] at hc2
            injection hc2 with h3 h4
            exact h3 ▸ mem_showNat_isDigit (hsn ▸ List.mem_cons_self d ds)
      rw [pyFloat?, hstrip, hur, hc]
      show (if c = '+' then _ else if c = '-' then _ else parseUnsigned (c :: r)) = _
      rw [if_neg (isDigit_ne hcd (by decide)), if_neg (isDigit_ne hcd (by decide)),
        ← hc, hparse, hvq]
      have : |(q.num : ℚ)| = (q.num : ℚ) :=
        abs_of_nonneg (by exact_mod_cast (not_lt.mp hneg))
      rw [this, hq]

/-! ## Field conditions for a faithful CSV round-trip -/

/-- The field holds no delimiter and no line terminator. -/
def fieldOk (s : Str) : Bool := s.all (fun c => c != ',' && c != '\n' && c != '\r')

/-- The string does not begin with strippable whitespace. -/
def noLeadWs : Str → Bool
  | [] => true
  | c :: _ => !isPyWs c

/-- The string does not end with strippable whitespace. -/
def noTrailWs (s : Str) : Bool := noLeadWs s.reverse

/-- A batch whose written CSV line reads back as the same batch: the five
string fields are delimiter- and terminator-free, the first field does not
start and the last does not end with whitespace. -/
def goodBatch (b : Batch) : Bool :=
  fieldOk b.batch_id && fieldOk b.date && fieldOk b.farmer_id && fieldOk b.bean_type &&
    fieldOk b.status && noLeadWs b.batch_id && noTrailWs b.status

theorem fieldOk_not_mem {s : Str} (h : fieldOk s = true) :
    ',' ∉ s ∧ '\n' ∉ s ∧ '\r' ∉ s := by
  rw [fieldOk, List.all_eq_true] at h
  refine ⟨fun hm => ?_, fun hm => ?_, fun hm => ?_⟩ <;> simpa using h _ hm

theorem fieldOk_of_goodStr {s : Str} (h : GoodStr s) : fieldOk s = true := by
  rw [fieldOk, List.all_eq_true]
  intro c hc
  have hg := h c hc
  rw [goodChar, Bool.and_eq_true, Bool.not_eq_true', bne_iff_ne] at hg
  have hws := hg.1
  rw [isPyWs] at hws
  simp only [Bool.or_eq_false_iff, decide_eq_false_iff_not] at hws
  simp only [bne_iff_ne, ne_eq, Bool.and_eq_true, decide_eq_true_eq]
  exact ⟨⟨hg.2, hws.1.1.1.2⟩, hws.1.1.2⟩

theorem showRat_fieldOk (q : ℚ) : fieldOk (showRat q) = true :=
  fieldOk_of_goodStr (showRat_good q)

/-! ## `parseLines` -/

theorem parseLines_append {α : Type} (p : Str → Option (Option α)) :
    ∀ {ls ms : List Str} {as bs : List α},
      parseLines p ls = some as → parseLines p ms = some bs →
      parseLines p (ls ++ ms) = some (as ++ bs) := by
  intro ls
  induction ls with
  | nil =>
    intro ms as bs h1 h2
    rw [parseLines] at h1
    injection h1 with h1
    subst h1
    simpa using h2
  | cons l t ih =>
    intro ms as bs h1 h2
    rw [parseLines] at h1
    rw [List.cons_append, parseLines]
    cases hp : p l with
    | none => rw [hp] at h1; simp at h1
    | some o =>
      rw [hp] at h1
      cases o with
      | none => exact ih h1 h2
      | some a =>
        have h1x : (parseLines p t).map (a :: ·) = some as := h1
        show (parseLines p (t ++ ms)).map (a :: ·) = some (as ++ bs)
        cases hq : parseLines p t with
        | none => rw [hq] at h1x; simp at h1x
        | some as2 =>
          rw [hq] at h1x
          injection h1x with h1x
          subst h1x
          rw [ih hq h2]
          rfl

theorem parseLines_bad {α : Type} (p : Str → Option (Option α)) {ls : List Str} {l : Str}
    (hm : l ∈ ls) (hp : p l = none) : parseLines p ls = none := by
  induction ls with
  | nil => cases hm
  | cons a t ih =>
    rw [parseLines]
    rcases List.mem_cons.mp hm with rfl | hm2
    · rw [hp]
    · cases hq : p a with
      | none => rfl
      | some o =>
        cases o with
        | none => exact ih hm2
        | some b =>
          show (parseLines p t).map (b :: ·) = none
          rw [ih hm2]
          rfl

/-! ## Reading back a written batch line -/

theorem noLeadWs_spec {s : Str} (h : noLeadWs s = true) :
    ∀ c, s.head? = some c → isPyWs c = false := by
  intro c hc
  rcases s with _ | ⟨d, t⟩
  · cases hc
  · injection hc with hc
    subst hc
    rw [noLeadWs] at h
    simpa using h

theorem noTrailWs_spec {s : Str} (h : noTrailWs s = true) :
    ∀ c, s.getLast? = some c → isPyWs c = false := by
  intro c hc
  rw [noTrailWs] at h
  rw [← List.head?_reverse] at hc
  exact noLeadWs_spec h c hc

theorem pyStrip_eq_self_ends {s : Str}
    (h1 : ∀ c, s.head? = some c → isPyWs c = false)
    (h2 : ∀ c, s.getLast? = some c → isPyWs c = false) : pyStrip s = s := by
  rw [pyStrip]
  have d1 : s.dropWhile isPyWs = s := by
    cases s with
    | nil => rfl
    | cons c t => rw [List.dropWhile_cons, h1 c rfl]; simp
  rw [d1]
  have d2 : s.reverse.dropWhile isPyWs = s.reverse := by
    cases hr : s.reverse with
    | nil => rfl
    | cons c t =>
      have hlast : s.getLast? = some c := by
        rw [← List.head?_reverse, hr]; rfl
      rw [List.dropWhile_cons, h2 c hlast]; simp
  rw [d2, List.reverse_reverse]

theorem goodBatch_parts {b : Batch} (h : goodBatch b = true) :
    fieldOk b.batch_id = true ∧ fieldOk b.date = true ∧ fieldOk b.farmer_id = true ∧
    fieldOk b.bean_type = true ∧ fieldOk b.status = true ∧ noLeadWs b.batch_id = true ∧
    noTrailWs b.status = true := by
  rw [goodBatch] at h
  simp only [Bool.and_eq_true] at h
  tauto

theorem invLineBody_eq_parts {b : Batch} (h : goodBatch b = true) :
    splitComma (invLineBody b) =
      [b.batch_id, b.date, b.farmer_id, b.bean_type, showRat b.weight_kg, b.status] := by
  obtain ⟨f1, f2, f3, f4, f5, _, _⟩ := goodBatch_parts h
  rw [invLineBody, splitComma,
    splitOnChar_append (fieldOk_not_mem f1).1,
    splitOnChar_append (fieldOk_not_mem f2).1,
    splitOnChar_append (fieldOk_not_mem f3).1,
    splitOnChar_append (fieldOk_not_mem f4).1,
    splitOnChar_append (fieldOk_not_mem (showRat_fieldOk b.weight_kg)).1,
    splitOnChar_of_not_mem (fieldOk_not_mem f5).1]

theorem invLineBody_no_term {b : Batch} (h : goodBatch b = true) :
    ∀ c ∈ invLineBody b, c ≠ '\n' ∧ c ≠ '\r' := by
  obtain ⟨f1, f2, f3, f4, f5, _, _⟩ := goodBatch_parts h
  intro c hc
  have field : ∀ {s : Str}, fieldOk s = true → c ∈ s → c ≠ '\n' ∧ c ≠ '\r' := by
    intro s hs hm
    rcases fieldOk_not_mem hs with ⟨_, hn, hr⟩
    exact ⟨fun e => hn (e ▸ hm), fun e => hr (e ▸ hm)⟩
  rw [invLineBody] at hc
  simp only [List.mem_append, List.mem_cons] at hc
  rcases hc with h1 | rfl | h1 | rfl | h1 | rfl | h1 | rfl | h1 | rfl | h1
  exacts [field f1 h1, ⟨by decide, by decide⟩, field f2 h1, ⟨by decide, by decide⟩,
    field f3 h1, ⟨by decide, by decide⟩, field f4 h1, ⟨by decide, by decide⟩,
    field (showRat_fieldOk _) h1, ⟨by decide, by decide⟩, field f5 h1]

theorem pyStrip_invLineBody {b : Batch} (h : goodBatch b = true) :
    pyStrip (invLineBody b) = invLineBody b := by
  obtain ⟨f1, f2, f3, f4, f5, nl, nt⟩ := goodBatch_parts h
  apply pyStrip_eq_self_ends
  · intro c hc
    rw [invLineBody] at hc
    cases hid : b.batch_id with
    | nil =>
      rw [hid] at hc
      injection hc with hc
      exact hc ▸ (by decide : isPyWs ',' = false)
    | cons a t =>
      rw [hid, List.cons_append] at hc
      injection hc with hc
      exact hc ▸ noLeadWs_spec (s := a :: t) (hid ▸ nl) a rfl
  · intro c hc
    have hre : invLineBody b =
        (b.batch_id ++ ',' :: (b.date ++ ',' :: (b.farmer_id ++ ',' ::
          (b.bean_type ++ ',' :: showRat b.weight_kg)))) ++ ',' :: b.status := by
      rw [invLineBody]
      simp [List.append_assoc]
    rw [hre, List.getLast?_append_cons] at hc
    cases hst : b.status with
    | nil =>
      rw [hst] at hc
      injection hc with hc
      exact hc ▸ (by decide : isPyWs ',' = false)
    | cons a t =>
      rw [hst, List.getLast?_cons_cons] at hc
      exact noTrailWs_spec nt c (by rw [hst]; exact hc)

theorem invLineBody_isEmpty {b : Batch} : (invLineBody b).isEmpty = false := by
  rw [invLineBody]
  cases b.batch_id <;> rfl

theorem parseInvLine_invLineBody {b : Batch} (h : goodBatch b = true) :
    parseInvLine (invLineBody b) = some (some b) := by
  rw [parseInvLine, pyStrip_invLineBody h, invLineBody_eq_parts h, invLineBody_isEmpty]
  rw [if_neg (by simp), if_pos (by simp)]
  show (match pyFloat? (showRat b.weight_kg) with
    | none => none
    | some w =>
      some (some ⟨b.batch_id, b.date, b.farmer_id, b.bean_type, w, b.status⟩)) =
    some (some b)
  rw [pyFloat?_showRat]

theorem writeInv_parse {bs : List Batch} (h : ∀ b ∈ bs, goodBatch b = true) :
    parseLines parseInvLine (splitLines (writeInv bs)) = some bs := by
  induction bs with
  | nil => rfl
  | cons b t ih =>
    rw [writeInv, invLine, List.append_assoc,
      show (['\n'] : Str) ++ writeInv t = '\n' :: writeInv t from rfl,
      splitLines_line (invLineBody_no_term (h b (List.mem_cons_self b t))) _,
      parseLines, parseInvLine_invLineBody (h b (List.mem_cons_self b t)),
      ih (fun x hx => h x (List.mem_cons_of_mem b hx))]
    rfl

theorem read_inventory_writeInv {bs : List Batch} (h : ∀ b ∈ bs, goodBatch b = true) :
    read_inventory (some (writeInv bs)) = bs := by
  rw [read_inventory, writeInv_parse h]
  rfl

theorem parse_append_invLine {c : Str} {bs : List Batch}
    (hterm : c = [] ∨ c.getLast? = some '\n')
    (hread : parseLines parseInvLine (splitLines c) = some bs)
    {b : Batch} (hb : goodBatch b = true) :
    parseLines parseInvLine (splitLines (c ++ invLine b)) = some (bs ++ [b]) := by
  have hline : parseLines parseInvLine (splitLines (invLine b)) = some [b] := by
    rw [invLine, show (['\n'] : Str) = '\n' :: ([] : Str) from rfl,
      splitLines_line (invLineBody_no_term hb) [], parseLines,
      parseInvLine_invLineBody hb]
    rfl
  rcases hterm with rfl | hterm
  · rw [List.nil_append]
    have hbs : bs = [] := by
      rw [show splitLines ([] : Str) = [] from rfl, parseLines] at hread
      injection hread with e
      exact e.symm
    subst hbs
    simpa using hline
  · rw [splitLines_append (invLine b) hterm]
    exact parseLines_append _ hread hline

/-! ## `setStatus` -/

theorem goodBatch_mk {b : Batch} (h1 : fieldOk b.batch_id = true)
    (h2 : fieldOk b.date = true) (h3 : fieldOk b.farmer_id = true)
    (h4 : fieldOk b.bean_type = true) (h5 : fieldOk b.status = true)
    (h6 : noLeadWs b.batch_id = true) (h7 : noTrailWs b.status = true) :
    goodBatch b = true := by
  rw [goodBatch]
  simp [h1, h2, h3, h4, h5, h6, h7]

theorem setStatus_good {id st : Str} {bs : List Batch}
    (hbs : ∀ b ∈ bs, goodBatch b = true) (hf : fieldOk st = true)
    (htr : noTrailWs st = true) :
    ∀ x ∈ setStatus id st bs, goodBatch x = true := by
  induction bs with
  | nil => intro x hx; cases hx
  | cons b t ih =>
    intro x hx
    rw [setStatus] at hx
    by_cases hb : b.batch_id = id
    · rw [if_pos hb] at hx
      rcases List.mem_cons.mp hx with rfl | hx
      · obtain ⟨g1, g2, g3, g4, _, g6, _⟩ :=
          goodBatch_parts (hbs b (List.mem_cons_self b t))
        exact goodBatch_mk g1 g2 g3 g4 hf g6 htr
      · exact hbs x (List.mem_cons_of_mem b hx)
    · rw [if_neg hb] at hx
      rcases List.mem_cons.mp hx with rfl | hx
      · exact hbs x (List.mem_cons_self x t)
      · exact ih (fun y hy => hbs y (List.mem_cons_of_mem b hy)) x hx

theorem setStatus_length (id st : Str) (bs : List Batch) :
    (setStatus id st bs).length = bs.length := by
  induction bs with
  | nil => rfl
  | cons b t ih =>
    rw [setStatus]
    by_cases hb : b.batch_id = id
    · rw [if_pos hb]
      simp
    · rw [if_neg hb]
      simp [ih]

theorem setStatus_get? (id st : Str) (bs : List Batch) (i : ℕ) :
    (((setStatus id st bs).get? i).map Batch.batch_id = (bs.get? i).map Batch.batch_id) ∧
    (((setStatus id st bs).get? i).map Batch.date = (bs.get? i).map Batch.date) ∧
    (((setStatus id st bs).get? i).map Batch.farmer_id = (bs.get? i).map Batch.farmer_id) ∧
    (((setStatus id st bs).get? i).map Batch.bean_type = (bs.get? i).map Batch.bean_type) ∧
    (((setStatus id st bs).get? i).map Batch.weight_kg = (bs.get? i).map Batch.weight_kg) ∧
    ((bs.get? i).map Batch.batch_id ≠ some id → (setStatus id st bs).get? i = bs.get? i) := by
  induction bs generalizing i with
  | nil => simp [setStatus]
  | cons b t ih =>
    rw [setStatus]
    by_cases hb : b.batch_id = id
    · rw [if_pos hb]
      cases i with
      | zero => simp [hb]
      | succ n => simp
    · rw [if_neg hb]
      cases i with
      | zero => simp
      | succ n => simpa using ih n

theorem find?_isSome_any (id : Str) (bs : List Batch) :
    (bs.find? (fun b => b.batch_id = id)).isSome = bs.any (fun b => b.batch_id = id) := by
  induction bs with
  | nil => rfl
  | cons b t ih =>
    by_cases hb : b.batch_id = id <;> simp [List.find?, hb, ih]

theorem find?_setStatus {id st : Str} {bs : List Batch}
    (h : bs.any (fun b => b.batch_id = id) = true) :
    ((setStatus id st bs).find? (fun x => x.batch_id = id)).map Batch.status = some st := by
  induction bs with
  | nil => cases h
  | cons b t ih =>
    rw [setStatus]
    by_cases hb : b.batch_id = id
    · rw [if_pos hb, List.find?_cons_of_pos _ (by simp [hb])]
      rfl
    · have ht : t.any (fun b => b.batch_id = id) = true := by
        simpa [hb] using h
      rw [if_neg hb, List.find?_cons_of_neg _ (by simp [hb]), ih ht]

/-! ## Operation-level helper lemmas -/

theorem update_preserves_proc (id s ts : Str) (fs : FS) :
    (update_batch_status id s ts fs).2.proc = fs.proc := by
  rw [update_batch_status]
  by_cases h : (read_inventory fs.inv).any (fun b => b.batch_id = id) = true
  · rw [if_pos h]
  · rw [if_neg h]

theorem update_not_found (fs : FS) {id s ts : Str}
    (h : find_batch_by_id id fs.inv = none) :
    update_batch_status id s ts fs = (false, fs) := by
  have hany : (read_inventory fs.inv).any (fun b => b.batch_id = id) = false := by
    rw [← find?_isSome_any]
    rw [find_batch_by_id] at h
    rw [h]
    rfl
  rw [update_batch_status, if_neg (by rw [hany]; simp)]

theorem bumpWeight_sum (m : List (Str × ℚ)) (k : Str) (w : ℚ) :
    ((bumpWeight m k w).map Prod.snd).sum = (m.map Prod.snd).sum + w := by
  induction m with
  | nil => simp [bumpWeight]
  | cons p t ih =>
    rw [bumpWeight]
    by_cases h : p.1 = k
    · rw [if_pos h]
      simp
      ring
    · rw [if_neg h]
      simp [ih]
      ring

theorem foldl_bumpWeight_sum (key : Batch → Str) (bs : List Batch) :
    ∀ m : List (Str × ℚ),
      ((bs.foldl (fun m b => bumpWeight m (key b) b.weight_kg) m).map Prod.snd).sum =
        (m.map Prod.snd).sum + (bs.map (fun b => b.weight_kg)).sum := by
  induction bs with
  | nil => intro m; simp
  | cons b t ih =>
    intro m
    rw [List.foldl_cons, ih, bumpWeight_sum]
    simp
    ring

/-! ## Claim theorems -/

/-- Claim C9: an input dictionary missing at least one required field makes
`add_bean_batch` (six required fields) and `record_processing_stage` (five
required fields) return failure and leave every stored file unchanged. -/
theorem missing_field_fails_without_mutation (bd : BatchInput) (pd : ProcInput)
    (ts t1 t2 : Str) (fs : FS)
    (hb : bd.batch_id = none ∨ bd.date = none ∨ bd.farmer_id = none ∨
      bd.bean_type = none ∨ bd.weight_kg = none ∨ bd.status = none)
    (hp : pd.batch_id = none ∨ pd.process_type = none ∨ pd.start_date = none ∨
      pd.end_date = none ∨ pd.weight_after = none) :
    add_bean_batch bd ts fs = (false, fs) ∧
    record_processing_stage pd t1 t2 fs = (false, fs) := by
  constructor
  · rcases bd with ⟨b1, b2, b3, b4, b5, b6⟩
    rcases b1 <;> rcases b2 <;> rcases b3 <;> rcases b4 <;> rcases b5 <;> rcases b6 <;>
      simp [add_bean_batch] <;> simp at hb
  · rcases pd with ⟨p1, p2, p3, p4, p5⟩
    rcases p1 <;> rcases p2 <;> rcases p3 <;> rcases p4 <;> rcases p5 <;>
      simp [record_processing_stage] <;> simp at hp

/-- Witness for C9 at a concrete input: `date` and `end_date` missing. -/
theorem missing_field_fails_without_mutation_witness :
    add_bean_batch ⟨some (str "B9"), none, some (str "F1"), some (str "Arabica"),
      some 250, some (str "received")⟩ (str "t") ⟨none, none, none⟩ = (false, ⟨none, none, none⟩) ∧
    record_processing_stage ⟨some (str "B9"), some (str "washing"), some (str "d1"),
      none, some 245⟩ (str "t") (str "t") ⟨none, none, none⟩ = (false, ⟨none, none, none⟩) :=
  missing_field_fails_without_mutation _ _ _ _ _ _
    (Or.inr (Or.inl rfl)) (Or.inr (Or.inr (Or.inr (Or.inl rfl))))

/-- Claim C2: `add_bean_batch` on a dictionary whose `batch_id` already
resolves in the inventory file fails and leaves the whole state — in
particular the stored inventory — unchanged. -/
theorem add_bean_batch_duplicate_fails (bd : BatchInput) (ts : Str) (fs : FS) {id : Str}
    (hid : bd.batch_id = some id) (hdup : (find_batch_by_id id fs.inv).isSome = true) :
    add_bean_batch bd ts fs = (false, fs) := by
  rcases bd with ⟨b1, b2, b3, b4, b5, b6⟩
  simp only at hid
  subst hid
  rcases b2 <;> rcases b3 <;> rcases b4 <;> rcases b5 <;> rcases b6 <;>
    simp [add_bean_batch, hdup]

/-- Witness for C2: duplicate id `B1` against a one-line inventory. -/
theorem add_bean_batch_duplicate_fails_witness :
    (find_batch_by_id (str "B1") (some (str "B1,2023,F1,Arabica,250,received\n"))).isSome
      = true ∧
    add_bean_batch ⟨some (str "B1"), some (str "2024"), some (str "F2"), some (str "Robusta"),
        some 300, some (str "received")⟩ (str "t")
      ⟨some (str "B1,2023,F1,Arabica,250,received\n"), none, none⟩ =
      (false, ⟨some (str "B1,2023,F1,Arabica,250,received\n"), none, none⟩) :=
  ⟨by with_unfolding_all decide,
    add_bean_batch_duplicate_fails _ _ _ rfl (by with_unfolding_all decide)⟩

/-- Claim C8: with all five required fields present,
`record_processing_stage` succeeds and the processing record is appended;
when the subsequent status update fails because the batch id is not in the
inventory, the appended record is still there and the inventory file is
untouched (no rollback). -/
theorem record_stage_no_rollback (id pt sd ed : Str) (w : ℚ) (t1 t2 : Str) (fs : FS) :
    (record_processing_stage ⟨some id, some pt, some sd, some ed, some w⟩ t1 t2 fs).1
      = true ∧
    (record_processing_stage ⟨some id, some pt, some sd, some ed, some w⟩ t1 t2 fs).2.proc
      = appendFile fs.proc (procLine ⟨id, pt, sd, ed, w⟩) ∧
    (find_batch_by_id id fs.inv = none →
      (record_processing_stage ⟨some id, some pt, some sd, some ed, some w⟩ t1 t2 fs).2.inv
        = fs.inv) := by
  refine ⟨rfl, ?_, ?_⟩
  · show (update_batch_status id pt t1
      { fs with proc := appendFile fs.proc (procLine ⟨id, pt, sd, ed, w⟩) }).2.proc = _
    rw [update_preserves_proc]
  · intro hf
    show (update_batch_status id pt t1
      { fs with proc := appendFile fs.proc (procLine ⟨id, pt, sd, ed, w⟩) }).2.inv = fs.inv
    rw [update_not_found
      { fs with proc := appendFile fs.proc (procLine ⟨id, pt, sd, ed, w⟩) } hf]

/-- Witness for C8: recording a stage for an id absent from the (missing)
inventory file. -/
theorem record_stage_no_rollback_witness :
    (record_processing_stage ⟨some (str "B9"), some (str "washing"), some (str "d1"),
      some (str "d2"), some 245⟩ (str "t") (str "t") ⟨none, none, none⟩).1 = true ∧
    (record_processing_stage ⟨some (str "B9"), some (str "washing"), some (str "d1"),
      some (str "d2"), some 245⟩ (str "t") (str "t") ⟨none, none, none⟩).2.proc
      = appendFile none (procLine ⟨str "B9", str "washing", str "d1", str "d2", 245⟩) ∧
    (find_batch_by_id (str "B9") none = none →
      (record_processing_stage ⟨some (str "B9"), some (str "washing"), some (str "d1"),
        some (str "d2"), some 245⟩ (str "t") (str "t") ⟨none, none, none⟩).2.inv = none) :=
  record_stage_no_rollback _ _ _ _ _ _ _ _

/-- Claim C10: on a non-empty inventory `calculate_inventory_summary`
returns a summary whose `bean_types` weights and `stages` weights each sum
to `total_weight`, with `total_batches` the number of inventory records. -/
theorem inventory_summary_invariants (f : FileContent) (hne : read_inventory f ≠ []) :
    ∃ s, calculate_inventory_summary f = some s ∧
      (s.bean_types.map Prod.snd).sum = s.total_weight ∧
      (s.stages.map Prod.snd).sum = s.total_weight ∧
      s.total_batches = (read_inventory f).length := by
  have hie : ¬(read_inventory f).isEmpty = true := by
    cases h : read_inventory f with
    | nil => exact absurd h hne
    | cons a t => simp
  rw [calculate_inventory_summary, if_neg hie]
  refine ⟨_, rfl, ?_, ?_, rfl⟩
  · rw [foldl_bumpWeight_sum Batch.bean_type]
    simp
  · rw [foldl_bumpWeight_sum Batch.status]
    simp

/-- Witness for C10 on a two-line inventory. -/
theorem inventory_summary_invariants_witness :
    read_inventory (some (str "B1,d,F1,Arabica,250,received\nB2,d,F2,Robusta,300,washing\n"))
      ≠ [] ∧
    (∃ s, calculate_inventory_summary
        (some (str "B1,d,F1,Arabica,250,received\nB2,d,F2,Robusta,300,washing\n")) = some s ∧
      (s.bean_types.map Prod.snd).sum = s.total_weight ∧
      (s.stages.map Prod.snd).sum = s.total_weight ∧
      s.total_batches = (read_inventory (some (str
        "B1,d,F1,Arabica,250,received\nB2,d,F2,Robusta,300,washing\n"))).length) :=
  ⟨by with_unfolding_all decide,
    inventory_summary_invariants _ (by with_unfolding_all decide)⟩

/-- Counterexample to claim C3 as stated: on a line with enough fields but
an unparseable numeric field the parse failure is raised inside the loop
(`parseInvLine`/`parseProcLine` return `none`), yet `read_inventory` and
`read_processing_records` catch it and return an empty list — a result —
instead of propagating the failure to the caller. -/
theorem read_parse_failure_contained_counterexample :
    parseInvLine (str "B1,2023,F1,Arabica,abc,received") = none ∧
    read_inventory (some (str "B1,2023,F1,Arabica,abc,received\n")) = [] ∧
    parseProcLine (str "B1,washing,d1,d2,abc") = none ∧
    read_processing_records (some (str "B1,washing,d1,d2,abc\n")) = [] := by
  with_unfolding_all decide

/-- Claim C3 (amended): an inventory or processing file containing a line
with at least the required number of fields but an unparseable numeric
field makes the whole read abort — the exception is caught inside the read
operation, which returns the empty list (all records discarded) rather
than raising to the caller. -/
theorem read_parse_failure_returns_empty (ci cp : Str)
    (hi : ∃ l ∈ splitLines ci, ¬(pyStrip l).isEmpty = true ∧
      6 ≤ (splitComma (pyStrip l)).length ∧
      pyFloat? ((splitComma (pyStrip l)).getD 4 []) = none)
    (hp : ∃ l ∈ splitLines cp, ¬(pyStrip l).isEmpty = true ∧
      5 ≤ (splitComma (pyStrip l)).length ∧
      pyFloat? ((splitComma (pyStrip l)).getD 4 []) = none) :
    read_inventory (some ci) = [] ∧ read_processing_records (some cp) = [] := by
  constructor
  · obtain ⟨l, hm, h1, h2, h3⟩ := hi
    have hbad : parseInvLine l = none := by
      rw [parseInvLine, if_neg h1, if_pos h2, h3]
    rw [read_inventory, parseLines_bad _ hm hbad]
    rfl
  · obtain ⟨l, hm, h1, h2, h3⟩ := hp
    have hbad : parseProcLine l = none := by
      rw [parseProcLine, if_neg h1, if_pos h2, h3]
    rw [read_processing_records, parseLines_bad _ hm hbad]
    rfl

/-- Witness for the amended C3 at concrete one-bad-line files. -/
theorem read_parse_failure_returns_empty_witness :
    (∃ l ∈ splitLines (str "B0,d,f,b,5,s\nB1,2023,F1,Arabica,abc,received\n"),
      ¬(pyStrip l).isEmpty = true ∧ 6 ≤ (splitComma (pyStrip l)).length ∧
      pyFloat? ((splitComma (pyStrip l)).getD 4 []) = none) ∧
    (∃ l ∈ splitLines (str "B1,washing,d1,d2,abc\n"),
      ¬(pyStrip l).isEmpty = true ∧ 5 ≤ (splitComma (pyStrip l)).length ∧
      pyFloat? ((splitComma (pyStrip l)).getD 4 []) = none) ∧
    read_inventory (some (str "B0,d,f,b,5,s\nB1,2023,F1,Arabica,abc,received\n")) = [] ∧
    read_processing_records (some (str "B1,washing,d1,d2,abc\n")) = [] := by
  refine ⟨by with_unfolding_all decide, by with_unfolding_all decide, ?_⟩
  exact read_parse_failure_returns_empty _ _
    (by with_unfolding_all decide) (by with_unfolding_all decide)

/-- Counterexample to claim C5 as stated: with `n = 0` the slice
`lines[-0:]` is the whole list, so `read_recent_logs 0` returns every
entry instead of at most `0`. -/
theorem read_recent_logs_zero_counterexample :
    0 < (read_recent_logs 0 (some (str "t1,op,x\n"))).length := by
  with_unfolding_all decide

/-- Claim C5 (amended): for `n ≥ 1`, `read_recent_logs n` returns at most
`n` entries — the well-formed entries among the last `n` lines, newest
first: appending one well-formed entry line makes that entry the head,
followed by the well-formed entries of the last `n - 1` old lines (newest
first); and when the file has at most `n` lines all its well-formed
entries are returned.  (For `n = 0` the whole file is returned, see the
counterexample.) -/
theorem read_recent_logs_spec (n : ℕ) (hn : 1 ≤ n) (f : FileContent) (c l cf : Str)
    (e : LogEntry) (hc : c = [] ∨ c.getLast? = some '\n')
    (hl : ∀ ch ∈ l, ch ≠ '\n' ∧ ch ≠ '\r') (he : parseLogLine l = some e) :
    (read_recent_logs n f).length ≤ n ∧
    read_recent_logs n (some (c ++ (l ++ ['\n']))) =
      e :: (((splitLines c).drop ((splitLines c).length - (n - 1))).filterMap
        parseLogLine).reverse ∧
    ((splitLines cf).length ≤ n →
      read_recent_logs n (some cf) = ((splitLines cf).filterMap parseLogLine).reverse) := by
  have hn0 : ¬n = 0 := by omega
  refine ⟨?_, ?_, ?_⟩
  · cases f with
    | none =>
      rw [show read_recent_logs n none = [] from rfl]
      simp
    | some content =>
      rw [read_recent_logs, if_neg hn0]
      calc ((((splitLines content).drop ((splitLines content).length - n)).filterMap
            parseLogLine).reverse).length
          ≤ ((splitLines content).drop ((splitLines content).length - n)).length := by
            rw [List.length_reverse]
            exact List.length_filterMap_le _ _
        _ ≤ n := by
            rw [List.length_drop]
            omega
  · have hsplit : splitLines (c ++ (l ++ ['\n'])) = splitLines c ++ [l] := by
      rcases hc with rfl | hc
      · rw [List.nil_append, show (['\n'] : Str) = '\n' :: ([] : Str) from rfl,
          splitLines_line hl []]
        rfl
      · rw [splitLines_append _ hc, show (['\n'] : Str) = '\n' :: ([] : Str) from rfl,
          splitLines_line hl []]
        rfl
    rw [read_recent_logs, if_neg hn0, hsplit]
    have hlen : (splitLines c ++ [l]).length - n ≤ (splitLines c).length := by
      simp
      omega
    rw [List.drop_append_of_le_length hlen, List.filterMap_append]
    have hk : (splitLines c ++ [l]).length - n = (splitLines c).length - (n - 1) := by
      simp
      omega
    rw [hk]
    simp [he]
  · intro hfew
    rw [read_recent_logs, if_neg hn0, Nat.sub_eq_zero_of_le hfew, List.drop_zero]

/-- Witness for the amended C5 at `n = 2` and concrete log contents. -/
theorem read_recent_logs_spec_witness :
    (read_recent_logs 2 (some (str "t0,op,z\nt1,op,x\n"))).length ≤ 2 ∧
    read_recent_logs 2 (some (str "t1,op,x\n" ++ (str "t2,op,y" ++ ['\n']))) =
      ⟨str "t2", str "op", str "y"⟩ ::
        (((splitLines (str "t1,op,x\n")).drop ((splitLines (str "t1,op,x\n")).length - 1)
          ).filterMap parseLogLine).reverse ∧
    ((splitLines (str "t1,op,x\n")).length ≤ 2 →
      read_recent_logs 2 (some (str "t1,op,x\n")) =
        ((splitLines (str "t1,op,x\n")).filterMap parseLogLine).reverse) := by
  have h := read_recent_logs_spec 2 (by omega) (some (str "t0,op,z\nt1,op,x\n"))
    (str "t1,op,x\n") (str "t2,op,y") (str "t1,op,x\n") ⟨str "t2", str "op", str "y"⟩
    (Or.inr (by with_unfolding_all decide)) (by with_unfolding_all decide)
    (by with_unfolding_all decide)
  exact h

/-- Unfolding of `add_bean_batch` when every required field is present. -/
theorem add_bean_batch_some (id date farmer bean st : Str) (w : ℚ) (ts : Str) (fs : FS) :
    add_bean_batch ⟨some id, some date, some farmer, some bean, some w, some st⟩ ts fs =
      if (find_batch_by_id id fs.inv).isSome then (false, fs)
      else (true, { fs with
        inv := appendFile fs.inv (invLine ⟨id, date, farmer, bean, w, st⟩),
        log := log_operation (str "add_batch") (str "Added batch " ++ id) ts fs.log }) := rfl

/-- Counterexample to claim C1 as stated: batch data with all six required
attributes and a fresh id but a comma inside `bean_type`.  `add_bean_batch`
succeeds, yet the written line has seven fields whose fifth is not numeric,
so the subsequent read aborts and `find_batch_by_id` returns `None` instead
of a record with the same attributes. -/
theorem add_then_find_counterexample :
    (add_bean_batch ⟨some (str "B9"), some (str "2023"), some (str "F1"),
      some (str "Ara,bica"), some 250, some (str "received")⟩ (str "t")
      ⟨none, none, none⟩).1 = true ∧
    find_batch_by_id (str "B9")
      (add_bean_batch ⟨some (str "B9"), some (str "2023"), some (str "F1"),
        some (str "Ara,bica"), some 250, some (str "received")⟩ (str "t")
        ⟨none, none, none⟩).2.inv = none := by
  with_unfolding_all decide

/-- Claim C1 (amended): for batch data with all six required attributes
whose string fields hold no delimiter or line-terminator characters, whose
`batch_id` does not begin — and `status` does not end — with strippable
whitespace, and whose id is not already found in the inventory, provided
the inventory file is absent, empty or newline-terminated and its current
contents parse, `add_bean_batch` succeeds and a subsequent
`find_batch_by_id` returns exactly the six stored attribute values. -/
theorem add_then_find_roundtrip (id date farmer bean st : Str) (w : ℚ) (ts : Str) (fs : FS)
    (hgood : goodBatch ⟨id, date, farmer, bean, w, st⟩ = true)
    (hterm : fs.inv.getD [] = [] ∨ (fs.inv.getD []).getLast? = some '\n')
    (hparse : parseLines parseInvLine (splitLines (fs.inv.getD [])) ≠ none)
    (hfresh : find_batch_by_id id fs.inv = none) :
    (add_bean_batch ⟨some id, some date, some farmer, some bean, some w, some st⟩ ts fs).1
      = true ∧
    find_batch_by_id id
      (add_bean_batch
        ⟨some id, some date, some farmer, some bean, some w, some st⟩ ts fs).2.inv
      = some ⟨id, date, farmer, bean, w, st⟩ := by
  have hns : ¬(find_batch_by_id id fs.inv).isSome = true := by
    rw [hfresh]
    simp
  rcases hp : parseLines parseInvLine (splitLines (fs.inv.getD [])) with _ | bs
  · exact absurd hp hparse
  constructor
  · rw [add_bean_batch_some, if_neg hns]
  · rw [add_bean_batch_some, if_neg hns]
    show find_batch_by_id id (appendFile fs.inv
      (invLine ⟨id, date, farmer, bean, w, st⟩)) = _
    rw [find_batch_by_id, appendFile, read_inventory,
      parse_append_invLine hterm hp hgood]
    show ((bs ++ [(⟨id, date, farmer, bean, w, st⟩ : Batch)]).find?
      (fun b => b.batch_id = id)) = _
    have hbs : bs.find? (fun b => b.batch_id = id) = none := by
      cases hi : fs.inv with
      | none =>
        have : bs = [] := by
          rw [hi] at hp
          rw [show ((none : FileContent).getD []) = [] from rfl] at hp
          rw [show splitLines ([] : Str) = [] from rfl, parseLines] at hp
          injection hp with e
          exact e.symm
        rw [this]
        rfl
      | some c =>
        rw [hi] at hfresh
        rw [hi] at hp
        rw [show ((some c : FileContent).getD []) = c from rfl] at hp
        rw [find_batch_by_id, read_inventory, hp] at hfresh
        exact hfresh
    rw [List.find?_append, hbs, List.find?_cons_of_pos _ (by simp)]
    rfl

/-- Witness for the amended C1: adding `B9` to a one-line inventory and
finding it again. -/
theorem add_then_find_roundtrip_witness :
    goodBatch ⟨str "B9", str "2023", str "F1", str "Arabica", 250, str "received"⟩ = true ∧
    (((⟨some (str "B1,d,f,b,5,s\n"), none, none⟩ : FS).inv.getD [] = [] ∨
      ((⟨some (str "B1,d,f,b,5,s\n"), none, none⟩ : FS).inv.getD []).getLast?
        = some '\n') ∧
    parseLines parseInvLine
      (splitLines ((⟨some (str "B1,d,f,b,5,s\n"), none, none⟩ : FS).inv.getD [])) ≠ none ∧
    find_batch_by_id (str "B9") (some (str "B1,d,f,b,5,s\n")) = none) ∧
    (add_bean_batch ⟨some (str "B9"), some (str "2023"), some (str "F1"),
      some (str "Arabica"), some 250, some (str "received")⟩ (str "t")
      ⟨some (str "B1,d,f,b,5,s\n"), none, none⟩).1 = true ∧
    find_batch_by_id (str "B9")
      (add_bean_batch ⟨some (str "B9"), some (str "2023"), some (str "F1"),
        some (str "Arabica"), some 250, some (str "received")⟩ (str "t")
        ⟨some (str "B1,d,f,b,5,s\n"), none, none⟩).2.inv
      = some ⟨str "B9", str "2023", str "F1", str "Arabica", 250, str "received"⟩ :=
  ⟨by with_unfolding_all decide,
   ⟨Or.inr (by with_unfolding_all decide), by with_unfolding_all decide,
    by with_unfolding_all decide⟩,
   add_then_find_roundtrip _ _ _ _ _ _ _ _
     (by with_unfolding_all decide) (Or.inr (by with_unfolding_all decide))
     (by with_unfolding_all decide) (by with_unfolding_all decide)⟩

/-- Counterexample to claim C6 as stated: updating with a status that
contains a comma succeeds, but the rewritten line then has seven fields
and the re-read status is the truncated `"a"`, not the requested
`"a,b"`. -/
theorem update_status_counterexample :
    (update_batch_status (str "B1") (str "a,b") (str "t")
      ⟨some (str "B1,d,f,b,5,s\n"), none, none⟩).1 = true ∧
    ((find_batch_by_id (str "B1")
      (update_batch_status (str "B1") (str "a,b") (str "t")
        ⟨some (str "B1,d,f,b,5,s\n"), none, none⟩).2.inv).map Batch.status)
      = some (str "a") ∧
    str "a" ≠ str "a,b" := by
  with_unfolding_all decide

/-- Claim C6 (amended): for a batch id found in the inventory,
`update_batch_status` succeeds and a subsequent `find_batch_by_id` returns
a record whose status is the new status — provided the stored records
round-trip and the new status holds no delimiter or terminator and does
not end in whitespace; for an id that is not found it returns failure with
the state unchanged. -/
theorem update_status_spec (id s ts : Str) (fs : FS)
    (hgood : ∀ b ∈ read_inventory fs.inv, goodBatch b = true)
    (hs1 : fieldOk s = true) (hs2 : noTrailWs s = true) :
    (find_batch_by_id id fs.inv = none → update_batch_status id s ts fs = (false, fs)) ∧
    ((find_batch_by_id id fs.inv).isSome = true →
      (update_batch_status id s ts fs).1 = true ∧
      ((find_batch_by_id id (update_batch_status id s ts fs).2.inv).map Batch.status)
        = some s) := by
  constructor
  · exact fun h => update_not_found fs h
  · intro hfound
    have hany : (read_inventory fs.inv).any (fun b => b.batch_id = id) = true := by
      rw [← find?_isSome_any]
      exact hfound
    constructor
    · rw [update_batch_status, if_pos hany]
    · rw [update_batch_status, if_pos hany]
      show ((find_batch_by_id id
        (some (writeInv (setStatus id s (read_inventory fs.inv))))).map Batch.status)
        = some s
      rw [find_batch_by_id, read_inventory_writeInv (setStatus_good hgood hs1 hs2)]
      exact find?_setStatus hany

/-- Witness for the amended C6 on a two-line inventory. -/
theorem update_status_spec_witness :
    (∀ b ∈ read_inventory (some (str "B1,d,f,b,5,s\nB2,e,g,c,6,t\n")),
      goodBatch b = true) ∧
    fieldOk (str "washing") = true ∧ noTrailWs (str "washing") = true ∧
    ((find_batch_by_id (str "B1") (some (str "B1,d,f,b,5,s\nB2,e,g,c,6,t\n")) = none →
      update_batch_status (str "B1") (str "washing") (str "t")
        ⟨some (str "B1,d,f,b,5,s\nB2,e,g,c,6,t\n"), none, none⟩ =
        (false, ⟨some (str "B1,d,f,b,5,s\nB2,e,g,c,6,t\n"), none, none⟩)) ∧
    ((find_batch_by_id (str "B1")
        (some (str "B1,d,f,b,5,s\nB2,e,g,c,6,t\n"))).isSome = true →
      (update_batch_status (str "B1") (str "washing") (str "t")
        ⟨some (str "B1,d,f,b,5,s\nB2,e,g,c,6,t\n"), none, none⟩).1 = true ∧
      ((find_batch_by_id (str "B1")
        (update_batch_status (str "B1") (str "washing") (str "t")
          ⟨some (str "B1,d,f,b,5,s\nB2,e,g,c,6,t\n"), none, none⟩).2.inv).map
            Batch.status) = some (str "washing"))) :=
  ⟨by with_unfolding_all decide, by with_unfolding_all decide,
   by with_unfolding_all decide,
   update_status_spec (str "B1") (str "washing") (str "t")
     ⟨some (str "B1,d,f,b,5,s\nB2,e,g,c,6,t\n"), none, none⟩
     (by with_unfolding_all decide)
     (by with_unfolding_all decide) (by with_unfolding_all decide)⟩

/-- Counterexample to claim C7 as stated: a stored line with seven fields
yields a record whose status carries a trailing space; updating a
different batch rewrites the file without the extra field, and on re-read
the untouched record's status has lost its trailing space — a field of
another record changed. -/
theorem update_status_frame_counterexample :
    ((read_inventory (some (str "B1,d,f,b,5,s\nB2,e,g,c,6,stat ,x\n"))).map Batch.status)
      = [str "s", str "stat "] ∧
    ((read_inventory (update_batch_status (str "B1") (str "washing") (str "t")
        ⟨some (str "B1,d,f,b,5,s\nB2,e,g,c,6,stat ,x\n"), none, none⟩).2.inv).map
          Batch.status)
      = [str "washing", str "stat"] ∧
    str "stat " ≠ str "stat" := by
  with_unfolding_all decide

/-- Claim C7 (amended): provided every stored record round-trips (fields
free of delimiters and terminators, no trailing whitespace on the status),
updating the status of a present batch id preserves the record count and,
at every position, the `batch_id`, `date`, `farmer_id`, `bean_type` and
`weight_kg` fields; every record whose id differs from the updated one is
completely unchanged. -/
theorem update_status_frame (id s ts : Str) (fs : FS)
    (hgood : ∀ b ∈ read_inventory fs.inv, goodBatch b = true)
    (hs1 : fieldOk s = true) (hs2 : noTrailWs s = true)
    (hfound : (find_batch_by_id id fs.inv).isSome = true) :
    (read_inventory (update_batch_status id s ts fs).2.inv).length
      = (read_inventory fs.inv).length ∧
    (∀ i : ℕ,
      (((read_inventory (update_batch_status id s ts fs).2.inv).get? i).map Batch.batch_id
        = ((read_inventory fs.inv).get? i).map Batch.batch_id) ∧
      (((read_inventory (update_batch_status id s ts fs).2.inv).get? i).map Batch.date
        = ((read_inventory fs.inv).get? i).map Batch.date) ∧
      (((read_inventory (update_batch_status id s ts fs).2.inv).get? i).map Batch.farmer_id
        = ((read_inventory fs.inv).get? i).map Batch.farmer_id) ∧
      (((read_inventory (update_batch_status id s ts fs).2.inv).get? i).map Batch.bean_type
        = ((read_inventory fs.inv).get? i).map Batch.bean_type) ∧
      (((read_inventory (update_batch_status id s ts fs).2.inv).get? i).map Batch.weight_kg
        = ((read_inventory fs.inv).get? i).map Batch.weight_kg) ∧
      (((read_inventory fs.inv).get? i).map Batch.batch_id ≠ some id →
        (read_inventory (update_batch_status id s ts fs).2.inv).get? i
          = (read_inventory fs.inv).get? i)) := by
  have hany : (read_inventory fs.inv).any (fun b => b.batch_id = id) = true := by
    rw [← find?_isSome_any]
    exact hfound
  have hread : read_inventory (update_batch_status id s ts fs).2.inv
      = setStatus id s (read_inventory fs.inv) := by
    rw [update_batch_status, if_pos hany]
    exact read_inventory_writeInv (setStatus_good hgood hs1 hs2)
  rw [hread]
  exact ⟨setStatus_length id s _, fun i => setStatus_get? id s _ i⟩

/-- Witness for the amended C7 on a two-line inventory. -/
theorem update_status_frame_witness :
    (∀ b ∈ read_inventory (some (str "B1,d,f,b,5,s\nB2,e,g,c,6,t\n")),
      goodBatch b = true) ∧
    fieldOk (str "washing") = true ∧ noTrailWs (str "washing") = true ∧
    (find_batch_by_id (str "B1")
      (some (str "B1,d,f,b,5,s\nB2,e,g,c,6,t\n"))).isSome = true ∧
    ((read_inventory (update_batch_status (str "B1") (str "washing") (str "t")
        ⟨some (str "B1,d,f,b,5,s\nB2,e,g,c,6,t\n"), none, none⟩).2.inv).length
      = (read_inventory (some (str "B1,d,f,b,5,s\nB2,e,g,c,6,t\n"))).length ∧
    (∀ i : ℕ,
      (((read_inventory (update_batch_status (str "B1") (str "washing") (str "t")
          ⟨some (str "B1,d,f,b,5,s\nB2,e,g,c,6,t\n"), none, none⟩).2.inv).get? i).map
            Batch.batch_id
        = ((read_inventory
            (some (str "B1,d,f,b,5,s\nB2,e,g,c,6,t\n"))).get? i).map Batch.batch_id) ∧
      (((read_inventory (update_batch_status (str "B1") (str "washing") (str "t")
          ⟨some (str "B1,d,f,b,5,s\nB2,e,g,c,6,t\n"), none, none⟩).2.inv).get? i).map
            Batch.date
        = ((read_inventory
            (some (str "B1,d,f,b,5,s\nB2,e,g,c,6,t\n"))).get? i).map Batch.date) ∧
      (((read_inventory (update_batch_status (str "B1") (str "washing") (str "t")
          ⟨some (str "B1,d,f,b,5,s\nB2,e,g,c,6,t\n"), none, none⟩).2.inv).get? i).map
            Batch.farmer_id
        = ((read_inventory
            (some (str "B1,d,f,b,5,s\nB2,e,g,c,6,t\n"))).get? i).map Batch.farmer_id) ∧
      (((read_inventory (update_batch_status (str "B1") (str "washing") (str "t")
          ⟨some (str "B1,d,f,b,5,s\nB2,e,g,c,6,t\n"), none, none⟩).2.inv).get? i).map
            Batch.bean_type
        = ((read_inventory
            (some (str "B1,d,f,b,5,s\nB2,e,g,c,6,t\n"))).get? i).map Batch.bean_type) ∧
      (((read_inventory (update_batch_status (str "B1") (str "washing") (str "t")
          ⟨some (str "B1,d,f,b,5,s\nB2,e,g,c,6,t\n"), none, none⟩).2.inv).get? i).map
            Batch.weight_kg
        = ((read_inventory
            (some (str "B1,d,f,b,5,s\nB2,e,g,c,6,t\n"))).get? i).map Batch.weight_kg) ∧
      (((read_inventory
          (some (str "B1,d,f,b,5,s\nB2,e,g,c,6,t\n"))).get? i).map Batch.batch_id
            ≠ some (str "B1") →
        (read_inventory (update_batch_status (str "B1") (str "washing") (str "t")
          ⟨some (str "B1,d,f,b,5,s\nB2,e,g,c,6,t\n"), none, none⟩).2.inv).get? i
          = (read_inventory (some (str "B1,d,f,b,5,s\nB2,e,g,c,6,t\n"))).get? i))) :=
  ⟨by with_unfolding_all decide, by with_unfolding_all decide,
   by with_unfolding_all decide, by with_unfolding_all decide,
   update_status_frame (str "B1") (str "washing") (str "t")
     ⟨some (str "B1,d,f,b,5,s\nB2,e,g,c,6,t\n"), none, none⟩
     (by with_unfolding_all decide)
     (by with_unfolding_all decide) (by with_unfolding_all decide)
     (by with_unfolding_all decide)⟩

/-! ## Grouping lemmas for `calculate_processing_yields` -/

theorem addToGroup_keys (m : List (Str × List ProcRecord)) (r : ProcRecord) :
    (addToGroup m r).map Prod.fst =
      if r.process_type ∈ m.map Prod.fst then m.map Prod.fst
      else m.map Prod.fst ++ [r.process_type] := by
  induction m with
  | nil => simp [addToGroup]
  | cons p t ih =>
    rw [addToGroup]
    by_cases hp : p.1 = r.process_type
    · rw [if_pos hp]
      simp [hp]
    · rw [if_neg hp]
      simp only [List.map_cons]
      rw [ih]
      by_cases hm : r.process_type ∈ t.map Prod.fst
      · rw [if_pos hm, if_pos (by simp [hm])]
      · rw [if_neg hm,
          if_neg (by simp [hm]; exact fun e => hp e.symm)]
        simp

theorem addToGroup_filter {done : List ProcRecord} {m : List (Str × List ProcRecord)}
    (r : ProcRecord) (hnd : (m.map Prod.fst).Nodup)
    (habs : r.process_type ∉ m.map Prod.fst →
      ∀ x ∈ done, ¬x.process_type = r.process_type)
    (hval : ∀ p ∈ m, p.2 = done.filter (fun x => x.process_type = p.1)) :
    ∀ p ∈ addToGroup m r,
      p.2 = (done ++ [r]).filter (fun x => x.process_type = p.1) := by
  induction m generalizing done with
  | nil =>
    intro p hp
    rcases List.mem_singleton.mp hp with rfl
    rw [List.filter_append]
    have h1 : done.filter (fun x => x.process_type = r.process_type) = [] := by
      rw [List.filter_eq_nil]
      intro x hx
      simpa using habs (by simp) x hx
    rw [h1]
    simp
  | cons q t ih =>
    intro p hp
    rw [addToGroup] at hp
    by_cases hq : q.1 = r.process_type
    · rw [if_pos hq] at hp
      rcases List.mem_cons.mp hp with rfl | hp
      · rw [List.filter_append, ← hval q (List.mem_cons_self q t)]
        simp [hq]
      · rw [List.filter_append, ← hval p (List.mem_cons_of_mem q hp)]
        have hne : ¬r.process_type = p.1 := by
          intro e
          have h1 : p.1 ∈ t.map Prod.fst := List.mem_map_of_mem Prod.fst hp
          have h2 : q.1 ∉ t.map Prod.fst := (List.nodup_cons.mp (by simpa using hnd)).1
          exact h2 (hq ▸ e ▸ h1)
        simp [hne]
    · rw [if_neg hq] at hp
      rcases List.mem_cons.mp hp with rfl | hp
      · rw [List.filter_append, ← hval p (List.mem_cons_self p t)]
        have hne : ¬r.process_type = p.1 := fun e => hq e.symm
        simp [hne]
      · exact ih (List.Nodup.of_cons (by simpa using hnd))
          (fun hnm => habs (by
            simp only [List.map_cons, List.mem_cons]
            rintro (e | e)
            · exact hq e.symm
            · exact hnm e))
          (fun x hx => hval x (List.mem_cons_of_mem q hx)) p hp

theorem groupRecords_inv (rs : List ProcRecord) :
    ∀ (done : List ProcRecord) (m : List (Str × List ProcRecord)),
      (m.map Prod.fst).Nodup →
      (∀ pt, pt ∈ m.map Prod.fst ↔ ∃ x ∈ done, x.process_type = pt) →
      (∀ p ∈ m, p.2 = done.filter (fun x => x.process_type = p.1)) →
      ((rs.foldl addToGroup m).map Prod.fst).Nodup ∧
      (∀ pt, pt ∈ (rs.foldl addToGroup m).map Prod.fst ↔
        ∃ x ∈ done ++ rs, x.process_type = pt) ∧
      (∀ p ∈ rs.foldl addToGroup m,
        p.2 = (done ++ rs).filter (fun x => x.process_type = p.1)) := by
  induction rs with
  | nil =>
    intro done m h1 h2 h3
    refine ⟨h1, ?_, ?_⟩
    · intro pt
      simpa using h2 pt
    · intro p hp
      simpa using h3 p hp
  | cons r t ih =>
    intro done m h1 h2 h3
    rw [List.foldl_cons]
    have hkeys := addToGroup_keys m r
    have h1' : ((addToGroup m r).map Prod.fst).Nodup := by
      rw [hkeys]
      by_cases hin : r.process_type ∈ m.map Prod.fst
      · rw [if_pos hin]; exact h1
      · rw [if_neg hin]
        simp [List.nodup_append, h1, hin]
    have h2' : ∀ pt, pt ∈ (addToGroup m r).map Prod.fst ↔
        ∃ x ∈ done ++ [r], x.process_type = pt := by
      intro pt
      rw [hkeys]
      by_cases hin : r.process_type ∈ m.map Prod.fst
      · rw [if_pos hin]
        rw [h2 pt]
        constructor
        · rintro ⟨x, hx, he⟩
          exact ⟨x, by simp [hx], he⟩
        · rintro ⟨x, hx, he⟩
          rcases List.mem_append.mp hx with hx | hx
          · exact ⟨x, hx, he⟩
          · rcases List.mem_singleton.mp hx with rfl
            exact (h2 pt).mp (he ▸ hin)
      · rw [if_neg hin]
        simp only [List.mem_append, List.mem_singleton]
        rw [h2 pt]  -- careful: rewrites inside; handle manually below if needed
        constructor
        · rintro (⟨x, hx, he⟩ | rfl)
          · exact ⟨x, Or.inl hx, he⟩
          · exact ⟨r, Or.inr rfl, rfl⟩
        · rintro ⟨x, hx | hx, he⟩
          · exact Or.inl ⟨x, hx, he⟩
          · rcases hx with rfl
            exact Or.inr he.symm
    have h3' := addToGroup_filter r h1
      (fun hnm x hx he => hnm ((h2 r.process_type).mpr ⟨x, hx, he⟩)) h3
    have := ih (done ++ [r]) (addToGroup m r) h1' h2' h3'
    rw [List.append_assoc] at this
    simpa using this

theorem groupRecords_spec (rs : List ProcRecord) :
    ((groupRecords rs).map Prod.fst).Nodup ∧
    (∀ pt, pt ∈ (groupRecords rs).map Prod.fst ↔ ∃ x ∈ rs, x.process_type = pt) ∧
    (∀ p ∈ groupRecords rs, p.2 = rs.filter (fun x => x.process_type = p.1)) := by
  have := groupRecords_inv rs [] [] (by simp) (by simp) (by simp)
  simpa [groupRecords] using this

theorem foldl_guard_append {α β : Type} (P : α → Prop) [DecidablePred P] (F : α → β)
    (l : List α) : ∀ acc : List β,
      l.foldl (fun acc g => if P g then acc ++ [F g] else acc) acc =
        acc ++ l.filterMap (fun g => if P g then some (F g) else none) := by
  induction l with
  | nil => intro acc; simp
  | cons g t ih =>
    intro acc
    rw [List.foldl_cons]
    by_cases h : P g
    · rw [if_pos h, ih]
      simp [List.filterMap_cons, h]
    · rw [if_neg h, ih]
      simp [List.filterMap_cons, h]

theorem keys_filterMap_guard {α β : Type} (P : α → Prop) [DecidablePred P]
    (key : α → Str) (F : α → β) (l : List α) :
    (l.filterMap (fun g => if P g then some (key g, F g) else none)).map Prod.fst =
      (l.filter (fun g => P g)).map key := by
  induction l with
  | nil => rfl
  | cons g t ih =>
    by_cases h : P g <;> simp [List.filterMap_cons, List.filter_cons, h, ih]

theorem mem_filterMap_guard {α β : Type} (P : α → Prop) [DecidablePred P] (F : α → β)
    (l : List α) (b : β) :
    b ∈ l.filterMap (fun g => if P g then some (F g) else none) ↔
      ∃ g ∈ l, P g ∧ F g = b := by
  rw [List.mem_filterMap]
  constructor
  · rintro ⟨g, hg, he⟩
    by_cases h : P g
    · rw [if_pos h] at he
      exact ⟨g, hg, h, by injection he⟩
    · rw [if_neg h] at he
      cases he
  · rintro ⟨g, hg, hp, rfl⟩
    exact ⟨g, hg, by rw [if_pos hp]⟩

theorem mem_resolvedOf {inv : FileContent} {rs : List ProcRecord}
    {rb : ProcRecord × Batch} (h : rb ∈ resolvedOf inv rs) :
    rb.1 ∈ rs ∧ find_batch_by_id rb.1.batch_id inv = some rb.2 := by
  rw [resolvedOf, List.mem_filterMap] at h
  rcases h with ⟨r, hr, he⟩
  cases hf : find_batch_by_id r.batch_id inv with
  | none => rw [hf] at he; cases he
  | some b =>
    rw [hf] at he
    injection he with he
    rw [← he]
    exact ⟨hr, hf⟩

theorem resolvedOf_length (inv : FileContent) (rs : List ProcRecord) :
    (resolvedOf inv rs).length =
      (rs.filter (fun r => (find_batch_by_id r.batch_id inv).isSome)).length := by
  induction rs with
  | nil => rfl
  | cons r t ih =>
    rw [resolvedOf, List.filterMap_cons, List.filter_cons]
    cases h : find_batch_by_id r.batch_id inv with
    | none => simpa [resolvedOf] using ih
    | some b => simpa [resolvedOf] using ih

theorem resolvedOf_pos_iff (inv : FileContent) (rs : List ProcRecord) :
    0 < (resolvedOf inv rs).length ↔
      ∃ r ∈ rs, (find_batch_by_id r.batch_id inv).isSome = true := by
  constructor
  · intro h
    rcases hres : rs.filter (fun r => (find_batch_by_id r.batch_id inv).isSome)
      with _ | ⟨x, t⟩
    · rw [resolvedOf_length, hres] at h
      cases h
    · have hx : x ∈ rs.filter (fun r => (find_batch_by_id r.batch_id inv).isSome) :=
        hres ▸ List.mem_cons_self x t
      rcases List.mem_filter.mp hx with ⟨h1, h2⟩
      exact ⟨x, h1, by simpa using h2⟩
  · rintro ⟨r, hr, hs⟩
    rw [resolvedOf_length, List.length_pos]
    intro he
    rw [List.filter_eq_nil] at he
    exact he r hr (by simpa using hs)

/-- The body of the yields loop rewritten as a `filterMap` over the
groups, valid when no division by zero occurs. -/
theorem calculate_processing_yields_eq (inv proc : FileContent)
    (hz : ¬((groupRecords (read_processing_records proc)).any
      (fun g => (resolvedOf inv g.2).any (fun rb => rb.2.weight_kg = 0))) = true) :
    calculate_processing_yields inv proc =
      (groupRecords (read_processing_records proc)).filterMap (fun g =>
        if 0 < (resolvedOf inv g.2).length then
          some (g.1,
            (⟨pyRound2 ((((resolvedOf inv g.2).map
              (fun rb => rb.1.weight_after / rb.2.weight_kg * 100)).sum) /
              ((resolvedOf inv g.2).length : ℚ)),
             (resolvedOf inv g.2).length⟩ : YieldStat))
        else none) := by
  have h := foldl_guard_append
    (fun g => 0 < (resolvedOf inv g.2).length)
    (fun g => (g.1,
      (⟨pyRound2 ((((resolvedOf inv g.2).map
        (fun rb => rb.1.weight_after / rb.2.weight_kg * 100)).sum) /
        ((resolvedOf inv g.2).length : ℚ)),
       (resolvedOf inv g.2).length⟩ : YieldStat)))
    (groupRecords (read_processing_records proc)) []
  rw [List.nil_append] at h
  rw [calculate_processing_yields, if_neg hz]
  exact h

/-- Counterexample to claim C4 as stated: one processing record whose
batch id resolves to nothing.  Its `process_type` occurs in the records,
but `calculate_processing_yields` has no key for it — the group with no
resolving records is dropped, instead of appearing with a count. -/
theorem processing_yields_counterexample :
    ((read_processing_records (some (str "B9,washing,d1,d2,100\n"))).map
      (fun r => r.process_type)) = [str "washing"] ∧
    calculate_processing_yields none (some (str "B9,washing,d1,d2,100\n")) = [] := by
  with_unfolding_all decide

/-- Claim C4 (amended): provided no record resolves to a zero-weight batch
(that raises `ZeroDivisionError` and collapses the whole result to `{}`),
the result of `calculate_processing_yields` has pairwise-distinct keys,
its keys are exactly the `process_type` values having at least one record
whose batch id resolves in the current inventory, and each group's `count`
equals the number of that group's records whose batch id resolves. -/
theorem processing_yields_keys_counts (inv proc : FileContent)
    (hz : ∀ r ∈ read_processing_records proc, ∀ b,
      find_batch_by_id r.batch_id inv = some b → ¬b.weight_kg = 0) :
    ((calculate_processing_yields inv proc).map Prod.fst).Nodup ∧
    (∀ pt, pt ∈ (calculate_processing_yields inv proc).map Prod.fst ↔
      ∃ r ∈ read_processing_records proc, r.process_type = pt ∧
        (find_batch_by_id r.batch_id inv).isSome = true) ∧
    (∀ pt stat, (pt, stat) ∈ calculate_processing_yields inv proc →
      stat.count = ((read_processing_records proc).filter (fun r =>
        r.process_type = pt ∧ (find_batch_by_id r.batch_id inv).isSome = true)).length) := by
  obtain ⟨gnd, gmem, gval⟩ := groupRecords_spec (read_processing_records proc)
  have hguard : ¬((groupRecords (read_processing_records proc)).any
      (fun g => (resolvedOf inv g.2).any (fun rb => rb.2.weight_kg = 0))) = true := by
    intro hany
    rw [List.any_eq_true] at hany
    rcases hany with ⟨g, hg, hg2⟩
    rw [List.any_eq_true] at hg2
    rcases hg2 with ⟨rb, hrb, hw⟩
    rcases mem_resolvedOf hrb with ⟨hr1, hr2⟩
    have hmem : rb.1 ∈ read_processing_records proc := by
      rw [gval g hg] at hr1
      exact (List.mem_filter.mp hr1).1
    exact hz rb.1 hmem rb.2 hr2 (by simpa using hw)
  rw [calculate_processing_yields_eq inv proc hguard]
  refine ⟨?_, ?_, ?_⟩
  · rw [keys_filterMap_guard]
    exact gnd.sublist (List.Sublist.map Prod.fst (List.filter_sublist _))
  · intro pt
    rw [keys_filterMap_guard]
    constructor
    · intro hm
      rcases List.mem_map.mp hm with ⟨g, hg, rfl⟩
      rcases List.mem_filter.mp hg with ⟨hg1, hg2⟩
      have hpos : 0 < (resolvedOf inv g.2).length := by simpa using hg2
      rcases (resolvedOf_pos_iff inv g.2).mp hpos with ⟨r, hr, hs⟩
      rw [gval g hg1] at hr
      rcases List.mem_filter.mp hr with ⟨hr1, hr2⟩
      exact ⟨r, hr1, by simpa using hr2, hs⟩
    · rintro ⟨r, hr, hpt, hs⟩
      have hkey : r.process_type ∈
          (groupRecords (read_processing_records proc)).map Prod.fst :=
        (gmem r.process_type).mpr ⟨r, hr, rfl⟩
      rcases List.mem_map.mp hkey with ⟨g, hg, hgpt⟩
      have hrg : r ∈ g.2 := by
        rw [gval g hg]
        exact List.mem_filter.mpr ⟨hr, by simp [hgpt]⟩
      have hpos : 0 < (resolvedOf inv g.2).length :=
        (resolvedOf_pos_iff inv g.2).mpr ⟨r, hrg, hs⟩
      refine List.mem_map.mpr ⟨g, List.mem_filter.mpr ⟨hg, by simpa using hpos⟩, ?_⟩
      rw [hgpt, hpt]
  · intro pt stat hm
    rcases (mem_filterMap_guard _ _ _ _).mp hm with ⟨g, hg, hp, he⟩
    have hpt : g.1 = pt := congrArg Prod.fst he
    have hstat : stat.count = (resolvedOf inv g.2).length := by
      have := congrArg Prod.snd he
      simp only at this
      rw [← this]
    rw [hstat, resolvedOf_length, gval g hg, List.filter_filter]
    congr 1
    apply List.filter_congr
    intro r hr
    rw [hpt]
    simp [Bool.and_comm]

/-- Witness for the amended C4 on an inventory where `B1` resolves and a
processing file with one resolving and one dangling record. -/
theorem processing_yields_keys_counts_witness :
    (∀ r ∈ read_processing_records
        (some (str "B1,washing,d1,d2,4\nB9,roasting,d1,d2,1\n")), ∀ b,
      find_batch_by_id r.batch_id (some (str "B1,d,f,b,5,s\n")) = some b →
        ¬b.weight_kg = 0) ∧
    (((calculate_processing_yields (some (str "B1,d,f,b,5,s\n"))
      (some (str "B1,washing,d1,d2,4\nB9,roasting,d1,d2,1\n"))).map Prod.fst).Nodup ∧
    (∀ pt, pt ∈ (calculate_processing_yields (some (str "B1,d,f,b,5,s\n"))
        (some (str "B1,washing,d1,d2,4\nB9,roasting,d1,d2,1\n"))).map Prod.fst ↔
      ∃ r ∈ read_processing_records
          (some (str "B1,washing,d1,d2,4\nB9,roasting,d1,d2,1\n")),
        r.process_type = pt ∧
        (find_batch_by_id r.batch_id (some (str "B1,d,f,b,5,s\n"))).isSome = true) ∧
    (∀ pt stat, (pt, stat) ∈ calculate_processing_yields (some (str "B1,d,f,b,5,s\n"))
        (some (str "B1,washing,d1,d2,4\nB9,roasting,d1,d2,1\n")) →
      stat.count = ((read_processing_records
          (some (str "B1,washing,d1,d2,4\nB9,roasting,d1,d2,1\n"))).filter (fun r =>
        r.process_type = pt ∧
        (find_batch_by_id r.batch_id (some (str "B1,d,f,b,5,s\n"))).isSome
          = true)).length)) :=
  ⟨by with_unfolding_all decide,
   processing_yields_keys_counts (some (str "B1,d,f,b,5,s\n"))
     (some (str "B1,washing,d1,d2,4\nB9,roasting,d1,d2,1\n"))
     (by with_unfolding_all decide)⟩

end Coffee

